import Mathlib

/-!
# CCT GPU resource manager (`cct/gpu/CudaImpl.hpp`, `cct/gpu/CudaImpl.cpp`)

A shallow embedding of `CCT::Impl` (stream and event pool, memory block registry)
and of `CCT::ThrustAllocator` (the exact-size caching sub-allocator).

Conventions of the embedding

* Raw pointers (`void*`, `char*`) and the CUDA handles (`CUstream_st*`,
  `CUevent_st*`) are natural numbers; `0` is `NULL`.
* `size_t` is a natural number below `2 ^ 64`; `std::ptrdiff_t` is an integer and
  its implicit conversion to `size_t` is `toSizeT`.
* The CUDA runtime is an oracle `Platform`: given the journal of everything the
  process did so far and the call being issued, it answers with a return code
  and the value written through the out-parameter of the call.
* Every platform call and every diagnostic (`CCT_WARN`, `CCT_ERROR`,
  `CCT_TRACE`) is appended to a journal kept in the ghost field `Impl.log`.
* Code that can leave the normal control flow returns `Except Fault`:
  `Fault.exit` is `exit(1)` from `CCT_CHECK_GPU`, `Fault.outOfBounds` is an
  access past the end of a `std::vector`.
* `std::multimap` is the list of its entries in iteration order (keys ascending,
  equal keys in insertion order); `find` returns the first entry with an
  equal key, which is what the red-black tree implementations of the standard
  library do (lower bound followed by an equality test).  `std::map` is the
  list of its entries in key order.
* `Impl::sleep` and `Impl::thrustPolicy` are declared in the header and defined
  elsewhere, and the profiling shim `EventTracer` only talks to the profiler; they are
  not part of the embedding.
-/

namespace CCT

/-- Raw address (`void*`, `char*`); `0` is `NULL`. -/
abbrev Addr := Nat

/-- Handle of a stream or of an event (`CUstream_st*`, `CUevent_st*`). -/
abbrev Handle := Nat

/-- Memory kinds of `enum MemType { CPU, GPU, DEV }`. -/
inductive MemType where
  | CPU
  | GPU
  | DEV
  deriving DecidableEq, Repr

/-- Copy directions selected by `Impl::implcopy`. -/
inductive CopyKind where
  | cudaMemcpyHostToDevice
  | cudaMemcpyDeviceToHost
  | cudaMemcpyDeviceToDevice
  deriving DecidableEq, Repr

/-- Enumerator `EventStream = 4` of `SyncEventType`. -/
def EventStream : Nat := 4

/-- Enumerator `NumStreams` of `SyncEventType` (the one after `EventStream`). -/
def NumStreams : Nat := EventStream + 1

/-- Enumerator `NumEvents = NumStreams` of `SyncEventType`. -/
def NumEvents : Nat := NumStreams

/-- Largest value of `size_t`. -/
def SIZE_MAX : Nat := 2 ^ 64 - 1

/-- Implicit conversion of a signed integer to `size_t`. -/
def toSizeT (n : Int) : Nat := (n % 2 ^ 64).toNat

/-- Range of `std::ptrdiff_t`. -/
def isPtrdiff (n : Int) : Prop := -(2 ^ 63) ≤ n ∧ n < 2 ^ 63

/-- Calls into the CUDA runtime issued by the two source files. -/
inductive Call where
  | cudaStreamCreateWithFlags
  | cudaEventCreate
  | cudaStreamSynchronize (stream : Handle)
  | cudaStreamDestroy (stream : Handle)
  | cudaEventDestroy (event : Handle)
  | cudaMalloc (size : Nat)
  | cudaMallocHost (size : Nat)
  | cudaFree (ptr : Addr)
  | cudaFreeHost (ptr : Addr)
  | cudaMemcpyAsync (dst src : Addr) (size : Nat) (kind : CopyKind) (stream : Handle)
  | cudaMemsetAsync (dst : Addr) (value : Int) (size : Nat) (stream : Handle)
  | cudaStreamWaitEvent (stream event : Handle)
  | cudaEventRecord (event stream : Handle)
  | cudaEventElapsedTime (start stop : Handle)
  | cudaDeviceSynchronize
  deriving DecidableEq, Repr

/-- Answer of the platform to a call: the `cudaError_t` return code (`0` is
`cudaSuccess`) and the value stored through the out-parameter, if the call has one. -/
structure Response where
  rc : Nat
  out : Nat
  deriving DecidableEq, Repr

/-- Modelled from the spec: the macros `CCT_WARN`, `CCT_ERROR` and `CCT_TRACE` come from
`cct/Config.hpp`, which is not among the two source files; the spec has them report a
diagnostic without ending the process.  They are the journal entries `warn`, `error`
and `trace`.  The entry `gpu` is a platform call together with its answer. -/
inductive Event where
  | gpu (call : Call) (answer : Response)
  | warn (ptr : Addr)
  | error
  | trace
  deriving DecidableEq, Repr

/-- The CUDA runtime seen from the program. -/
abbrev Platform := List Event → Call → Response

/-- Ways of leaving the normal control flow. -/
inductive Fault where
  | exit
  | outOfBounds
  deriving DecidableEq, Repr

/-- The platform call of a journal entry, if it is one. -/
def Event.call? : Event → Option Call
  | .gpu c _ => some c
  | _ => none

/-- The platform calls of a journal, in order. -/
def calls (log : List Event) : List Call := log.filterMap Event.call?

/-! ## `std::multimap<std::ptrdiff_t, char*>` and `std::map<char*, std::ptrdiff_t>` -/

/-- Insertion `freeBlockMap.emplace(key, ptr)`: the new entry goes after every
entry whose key is not greater. -/
def mmEmplace (key : Int) (ptr : Addr) : List (Int × Addr) → List (Int × Addr)
  | [] => [(key, ptr)]
  | e :: es => if key < e.1 then (key, ptr) :: e :: es else e :: mmEmplace key ptr es

/-- Lookup `freeBlockMap.find(key)`: the first entry with that key. -/
def mmFind (key : Int) (m : List (Int × Addr)) : Option (Int × Addr) :=
  m.find? (fun e => e.1 == key)

/-- Removal `freeBlockMap.erase(it)` for the iterator `it = find(key)`. -/
def mmEraseFound (key : Int) (m : List (Int × Addr)) : List (Int × Addr) :=
  m.eraseP (fun e => e.1 == key)

/-- Lookup `allocatedBlockMap.find(ptr)`. -/
def mapFind (ptr : Addr) (m : List (Addr × Int)) : Option (Addr × Int) :=
  m.find? (fun e => e.1 == ptr)

/-- Insertion `allocatedBlockMap.emplace(ptr, size)`: nothing happens when the
key is already there. -/
def mapEmplace (ptr : Addr) (size : Int) : List (Addr × Int) → List (Addr × Int)
  | [] => [(ptr, size)]
  | e :: es =>
    if ptr < e.1 then (ptr, size) :: e :: es
    else if ptr = e.1 then e :: es
    else e :: mapEmplace ptr size es

/-- Removal `allocatedBlockMap.erase(it)` for the iterator `it = find(ptr)`. -/
def mapEraseFound (ptr : Addr) (m : List (Addr × Int)) : List (Addr × Int) :=
  m.eraseP (fun e => e.1 == ptr)

/-! ## State -/

/-- Data members of `class ThrustAllocator` (the back pointer `gpuPtr` to the
manager is the `Impl` passed to the operations). -/
structure ThrustAllocator where
  freeBlockMap : List (Int × Addr)
  allocatedBlockMap : List (Addr × Int)
  deriving DecidableEq, Repr

/-- Data members of `class Impl`, and the journal. `device` is the identifier of the
device behind the `DevicePtr`, `none` for a null pointer.  `hostPtr` and `gpuPtr`
hold the addresses owned by the `SharedMem` entries; the deleter of an entry of
`hostPtr` is `cudaFreeHost`, that of an entry of `gpuPtr` is `cudaFree`. -/
structure Impl where
  device : Option Nat
  eventStart : List Handle
  eventStop : List Handle
  streamPtr : List Handle
  hostPtr : List Addr
  gpuPtr : List Addr
  thrustCache : List ThrustAllocator
  log : List Event
  deriving DecidableEq, Repr

/-- The macro `CCT_CHECK_GPU(val)`: issue the call; a non-zero return code
reports the error and calls `exit(1)`. -/
def checkGpu (P : Platform) (log : List Event) (c : Call) : Except Fault (Nat × List Event) :=
  if (P log c).rc = 0 then .ok ((P log c).out, log ++ [Event.gpu c (P log c)])
  else .error Fault.exit

/-! ## Memory block registry -/

/-- The method `Impl::allocate(size, type)`. -/
def Impl.allocate (P : Platform) (g : Impl) (size : Nat) (type : MemType) :
    Except Fault (Addr × Impl) :=
  if type = MemType.GPU then
    match checkGpu P g.log (Call.cudaMalloc size) with
    | .error f => .error f
    | .ok (ptr, log) =>
      .ok (ptr, { g with log := log, gpuPtr := if ptr ≠ 0 then g.gpuPtr ++ [ptr] else g.gpuPtr })
  else
    match checkGpu P g.log (Call.cudaMallocHost size) with
    | .error f => .error f
    | .ok (ptr, log) =>
      .ok (ptr, { g with log := log, hostPtr := if ptr ≠ 0 then g.hostPtr ++ [ptr] else g.hostPtr })

/-- The template `Impl::alloc<T>(var, size, type)`; `sizeofT` is `sizeof(T)` and the
product is taken in `size_t`. -/
def Impl.alloc (P : Platform) (g : Impl) (sizeofT : Nat) (size : Nat) (type : MemType) :
    Except Fault (Addr × Impl) :=
  g.allocate P (size * sizeofT % 2 ^ 64) type

/-- The method `Impl::free(ptr)`.  Erasing an entry destroys its `SharedMem`, whose
deleter is called with the address (its return code is not looked at). -/
def Impl.free (P : Platform) (g : Impl) (ptr : Addr) : Impl :=
  if ptr ∈ g.gpuPtr then
    { g with gpuPtr := g.gpuPtr.erase ptr,
             log := g.log ++ [Event.gpu (Call.cudaFree ptr) (P g.log (Call.cudaFree ptr))] }
  else if ptr ∈ g.hostPtr then
    { g with hostPtr := g.hostPtr.erase ptr,
             log := g.log ++ [Event.gpu (Call.cudaFreeHost ptr) (P g.log (Call.cudaFreeHost ptr))] }
  else
    { g with log := g.log ++ [Event.warn ptr] }

/-! ## Caching sub-allocator -/

/-- The method `ThrustAllocator::allocate(size)`; the element type of the
allocator is `char`, so `sizeof(T)` is `1`. -/
def ThrustAllocator.allocate (P : Platform) (t : ThrustAllocator) (g : Impl) (size : Int) :
    Except Fault (Addr × ThrustAllocator × Impl) :=
  match mmFind size t.freeBlockMap with
  | some freeBlock =>
    .ok (freeBlock.2,
         { freeBlockMap := mmEraseFound size t.freeBlockMap,
           allocatedBlockMap := mapEmplace freeBlock.2 size t.allocatedBlockMap },
         g)
  | none =>
    match g.alloc P 1 (toSizeT size) MemType.GPU with
    | .error f => .error f
    | .ok (result, g1) =>
      .ok (result, { t with allocatedBlockMap := mapEmplace result size t.allocatedBlockMap }, g1)

/-- The method `ThrustAllocator::deallocate(ptr, _)`. -/
def ThrustAllocator.deallocate (t : ThrustAllocator) (g : Impl) (ptr : Addr) :
    ThrustAllocator × Impl :=
  match mapFind ptr t.allocatedBlockMap with
  | none => (t, { g with log := g.log ++ [Event.error] })
  | some it =>
    ({ freeBlockMap := mmEmplace it.2 it.1 t.freeBlockMap,
       allocatedBlockMap := mapEraseFound ptr t.allocatedBlockMap }, g)

/-- Keys of a `std::map` are strictly ascending, hence distinct. -/
def mapWF (m : List (Addr × Int)) : Prop := (m.map Prod.fst).Pairwise (· < ·)

instance (m : List (Addr × Int)) : Decidable (mapWF m) := by
  unfold mapWF; infer_instance

/-- Addresses a cache holds: those of its free blocks and those checked out. -/
def ThrustAllocator.held (t : ThrustAllocator) : List Addr :=
  t.freeBlockMap.map Prod.snd ++ t.allocatedBlockMap.map Prod.fst

/-- A cache as `ThrustAllocator(this)` constructs it: both maps empty. -/
def ThrustAllocator.empty : ThrustAllocator := ⟨[], []⟩

/-- Calls made on one `ThrustAllocator`. -/
inductive CacheOp where
  | allocate (size : Int)
  | deallocate (ptr : Addr)
  deriving DecidableEq, Repr

/-- One call on a cache, the returned address dropped. -/
def ThrustAllocator.step (P : Platform) (t : ThrustAllocator) (g : Impl) :
    CacheOp → Except Fault (ThrustAllocator × Impl)
  | .allocate size =>
    match t.allocate P g size with
    | .ok (_, t1, g1) => .ok (t1, g1)
    | .error f => .error f
  | .deallocate ptr => .ok (t.deallocate g ptr)

/-- A sequence of calls on a cache. -/
def ThrustAllocator.run (P : Platform) :
    ThrustAllocator → Impl → List CacheOp → Except Fault (ThrustAllocator × Impl)
  | t, g, [] => .ok (t, g)
  | t, g, op :: ops =>
    match t.step P g op with
    | .ok (t1, g1) => ThrustAllocator.run P t1 g1 ops
    | .error f => .error f

/-- Along a sequence of calls on a cache, every request that reaches the platform
succeeds and returns an address the cache does not hold at that moment. -/
def ThrustAllocator.fresh (P : Platform) :
    ThrustAllocator → Impl → List CacheOp → Prop
  | _, _, [] => True
  | t, g, .deallocate ptr :: ops =>
    ThrustAllocator.fresh P (t.deallocate g ptr).1 (t.deallocate g ptr).2 ops
  | t, g, .allocate size :: ops =>
    match t.allocate P g size with
    | .ok (a, t1, g1) =>
      (mmFind size t.freeBlockMap = none → a ∉ t.held) ∧ ThrustAllocator.fresh P t1 g1 ops
    | .error _ => False

/-- Freshness of a sequence of calls on a cache can be computed. -/
def ThrustAllocator.decFresh (P : Platform) :
    (ops : List CacheOp) → (t : ThrustAllocator) → (g : Impl) →
      Decidable (ThrustAllocator.fresh P t g ops)
  | [], _, _ => isTrue trivial
  | .deallocate ptr :: ops, t, g =>
    ThrustAllocator.decFresh P ops (t.deallocate g ptr).1 (t.deallocate g ptr).2
  | .allocate size :: ops, t, g =>
    match h : t.allocate P g size with
    | .ok (a, t1, g1) =>
      have := ThrustAllocator.decFresh P ops t1 g1
      decidable_of_iff
        ((mmFind size t.freeBlockMap = none → a ∉ t.held) ∧ ThrustAllocator.fresh P t1 g1 ops)
        (by simp only [ThrustAllocator.fresh, h])
    | .error _ => isFalse (by simp only [ThrustAllocator.fresh, h]; exact id)

instance (P : Platform) (t : ThrustAllocator) (g : Impl) (ops : List CacheOp) :
    Decidable (ThrustAllocator.fresh P t g ops) := ThrustAllocator.decFresh P ops t g

/-- The device allocations recorded in a journal, as pairs (bytes requested, address
returned). -/
def requests : List Event → List (Nat × Addr)
  | [] => []
  | Event.gpu (Call.cudaMalloc n) r :: evs => (n, r.out) :: requests evs
  | _ :: evs => requests evs

/-- Whether a journal entry is a release of memory to the platform. -/
def Event.isRelease : Event → Bool
  | .gpu (Call.cudaFree _) _ => true
  | .gpu (Call.cudaFreeHost _) _ => true
  | _ => false

/-- Entries of the two maps of a cache as pairs (bytes requested from the
manager, address). -/
def ThrustAllocator.blocks (t : ThrustAllocator) : List (Nat × Addr) :=
  t.freeBlockMap.map (fun e => (toSizeT e.1, e.2)) ++
    t.allocatedBlockMap.map (fun e => (toSizeT e.2, e.1))

/-- What holds of a cache `t` and its manager `g` after calls on the cache that
started from an empty cache when the journal was `log0` and the tracked lists were
`gpu0` and `host0`. -/
structure CacheInv (log0 : List Event) (gpu0 host0 : List Addr) (t : ThrustAllocator)
    (g : Impl) : Prop where
  journal : ∃ evs, g.log = log0 ++ evs ∧ (∀ ev ∈ evs, ev.isRelease = false) ∧
    (requests evs).Perm t.blocks
  nodup : t.held.Nodup
  wf : mapWF t.allocatedBlockMap
  host : g.hostPtr = host0
  gpu : gpu0 <+: g.gpuPtr

/-- Addresses the registry tracks, device list first. -/
def Impl.tracked (g : Impl) : List Addr := g.gpuPtr ++ g.hostPtr

/-- Calls on the registry. -/
inductive RegOp where
  | allocate (size : Nat) (type : MemType)
  | free (ptr : Addr)
  deriving DecidableEq, Repr

/-- A sequence of `Impl::allocate` / `Impl::free` calls. -/
def Impl.runReg (P : Platform) : Impl → List RegOp → Except Fault Impl
  | g, [] => .ok g
  | g, .free ptr :: ops => Impl.runReg P (g.free P ptr) ops
  | g, .allocate size type :: ops =>
    match g.allocate P size type with
    | .ok (_, g1) => Impl.runReg P g1 ops
    | .error f => .error f

/-- Along a sequence of registry calls, every platform allocation succeeds and
returns an address that is not tracked at that moment. -/
def Impl.regFresh (P : Platform) : Impl → List RegOp → Prop
  | _, [] => True
  | g, .free ptr :: ops => Impl.regFresh P (g.free P ptr) ops
  | g, .allocate size type :: ops =>
    match g.allocate P size type with
    | .ok (a, g1) => a ∉ g.tracked ∧ Impl.regFresh P g1 ops
    | .error _ => False

/-- Freshness of a sequence of registry calls can be computed. -/
def Impl.decRegFresh (P : Platform) :
    (ops : List RegOp) → (g : Impl) → Decidable (Impl.regFresh P g ops)
  | [], _ => isTrue trivial
  | .free ptr :: ops, g => Impl.decRegFresh P ops (g.free P ptr)
  | .allocate size type :: ops, g =>
    match h : g.allocate P size type with
    | .ok (a, g1) =>
      have := Impl.decRegFresh P ops g1
      decidable_of_iff (a ∉ g.tracked ∧ Impl.regFresh P g1 ops)
        (by simp only [Impl.regFresh, h])
    | .error _ => isFalse (by simp only [Impl.regFresh, h]; exact id)

instance (P : Platform) (g : Impl) (ops : List RegOp) : Decidable (Impl.regFresh P g ops) :=
  Impl.decRegFresh P ops g

/-! ## Stream and event pool -/

/-- Loop of the constructor creating the streams:
`CCT_CHECK_GPU(cudaStreamCreateWithFlags(&streamPtr[ii], cudaStreamNonBlocking))`. -/
def Impl.createStreams (P : Platform) : List Nat → Impl → Except Fault Impl
  | [], g => .ok g
  | ii :: rest, g =>
    if ii < g.streamPtr.length then
      match checkGpu P g.log Call.cudaStreamCreateWithFlags with
      | .error f => .error f
      | .ok (h, log) =>
        Impl.createStreams P rest { g with streamPtr := g.streamPtr.set ii h, log := log }
    else .error Fault.outOfBounds

/-- Loop of the constructor creating the pairs of events. -/
def Impl.createEvents (P : Platform) : List Nat → Impl → Except Fault Impl
  | [], g => .ok g
  | ii :: rest, g =>
    if ii < g.eventStart.length then
      match checkGpu P g.log Call.cudaEventCreate with
      | .error f => .error f
      | .ok (h1, log1) =>
        if ii < g.eventStop.length then
          match checkGpu P log1 Call.cudaEventCreate with
          | .error f => .error f
          | .ok (h2, log2) =>
            Impl.createEvents P rest
              { g with eventStart := g.eventStart.set ii h1,
                       eventStop := g.eventStop.set ii h2, log := log2 }
        else .error Fault.outOfBounds
    else .error Fault.outOfBounds

/-- The constructor `Impl::Impl(device)`, run by a process whose journal is `log`. -/
def Impl.new (P : Platform) (device : Option Nat) (log : List Event) : Except Fault Impl :=
  match Impl.createStreams P (List.range NumStreams)
      { device := device,
        eventStart := List.replicate NumEvents 0,
        eventStop := List.replicate NumEvents 0,
        streamPtr := List.replicate NumStreams 0,
        hostPtr := [],
        gpuPtr := [],
        thrustCache := List.replicate NumStreams ThrustAllocator.empty,
        log := log } with
  | .error f => .error f
  | .ok g => Impl.createEvents P (List.range NumEvents) g

/-- The method `Impl::stream(index)`. -/
def Impl.stream (g : Impl) (index : Nat) : Except Fault Handle :=
  match g.streamPtr[if index ≥ g.streamPtr.length then EventStream else index]? with
  | some h => .ok h
  | none => .error Fault.outOfBounds

/-- Element access `v[i]` of a `std::vector` of handles. -/
def vecAt (v : List Handle) (i : Nat) : Except Fault Handle :=
  match v[i]? with
  | some h => .ok h
  | none => .error Fault.outOfBounds

/-- A checked platform call whose out-parameter is not used. -/
def Impl.issue (P : Platform) (g : Impl) (c : Call) : Except Fault Impl :=
  match checkGpu P g.log c with
  | .error f => .error f
  | .ok (_, log) => .ok { g with log := log }

/-- The method `Impl::implcopy(to, from, size, type, index)`. -/
def Impl.implcopy (P : Platform) (g : Impl) (dst src : Addr) (size : Nat) (type : MemType)
    (index : Nat) : Except Fault Impl :=
  match g.stream index with
  | .error f => .error f
  | .ok st =>
    g.issue P (Call.cudaMemcpyAsync dst src size
      (match type with
       | .GPU => CopyKind.cudaMemcpyHostToDevice
       | .CPU => CopyKind.cudaMemcpyDeviceToHost
       | .DEV => CopyKind.cudaMemcpyDeviceToDevice) st)

/-- The template `Impl::copy<T>(to, from, numElements, type, index)`. -/
def Impl.copy (P : Platform) (g : Impl) (sizeofT : Nat) (dst src : Addr) (numElements : Nat)
    (type : MemType) (index : Nat) : Except Fault Impl :=
  g.implcopy P dst src (numElements * sizeofT % 2 ^ 64) type index

/-- The method `Impl::implset(to, value, size, index)`. -/
def Impl.implset (P : Platform) (g : Impl) (dst : Addr) (value : Int) (size : Nat)
    (index : Nat) : Except Fault Impl :=
  match g.stream index with
  | .error f => .error f
  | .ok st => g.issue P (Call.cudaMemsetAsync dst value size st)

/-- The template `Impl::set<T>(to, value, numElements, index)`. -/
def Impl.set (P : Platform) (g : Impl) (sizeofT : Nat) (dst : Addr) (value : Int)
    (numElements : Nat) (index : Nat) : Except Fault Impl :=
  g.implset P dst value (numElements * sizeofT % 2 ^ 64) index

/-- The method `Impl::streamWait(streamIndex, eventIndex)`. -/
def Impl.streamWait (P : Platform) (g : Impl) (streamIndex eventIndex : Nat) :
    Except Fault Impl :=
  match g.stream streamIndex with
  | .error f => .error f
  | .ok st =>
    match vecAt g.eventStop eventIndex with
    | .error f => .error f
    | .ok ev => g.issue P (Call.cudaStreamWaitEvent st ev)

/-- The value of `~0` once converted to `size_t`: the default `streamIndex` of
`timerStart` and `timerStop`, and the value they compare it with. -/
def autoStream : Nat := toSizeT (-1)

/-- The first statement of `timerStart` and of `timerStop`:
`if (~0 == streamIndex) streamIndex = std::min<size_t>(eventIndex, EventStream);`
gives the stream index the marker is recorded with. -/
def timerStream (eventIndex streamIndex : Nat) : Nat :=
  if autoStream = streamIndex then min eventIndex EventStream else streamIndex

/-- The method `Impl::timerStart(eventIndex, streamIndex)`. -/
def Impl.timerStart (P : Platform) (g : Impl) (eventIndex streamIndex : Nat) :
    Except Fault Impl :=
  match vecAt g.eventStart eventIndex with
  | .error f => .error f
  | .ok ev =>
    match g.stream (timerStream eventIndex streamIndex) with
    | .error f => .error f
    | .ok st => g.issue P (Call.cudaEventRecord ev st)

/-- The method `Impl::timerStop(eventIndex, streamIndex)`. -/
def Impl.timerStop (P : Platform) (g : Impl) (eventIndex streamIndex : Nat) :
    Except Fault Impl :=
  match vecAt g.eventStop eventIndex with
  | .error f => .error f
  | .ok ev =>
    match g.stream (timerStream eventIndex streamIndex) with
    | .error f => .error f
    | .ok st => g.issue P (Call.cudaEventRecord ev st)

/-- The method `Impl::timerElapsed(eventIndex)`; the `float` written by the platform is
returned as the raw value of the out-parameter. -/
def Impl.timerElapsed (P : Platform) (g : Impl) (eventIndex : Nat) :
    Except Fault (Nat × Impl) :=
  match (if eventIndex ≤ EventStream then g.streamWait P eventIndex eventIndex
         else .ok g) with
  | .error f => .error f
  | .ok g1 =>
    match vecAt g1.eventStart eventIndex with
    | .error f => .error f
    | .ok ev1 =>
      match vecAt g1.eventStop eventIndex with
      | .error f => .error f
      | .ok ev2 =>
        match checkGpu P g1.log (Call.cudaEventElapsedTime ev1 ev2) with
        | .error f => .error f
        | .ok (timeEvent, log) => .ok (timeEvent, { g1 with log := log })

/-- The method `Impl::synchronize(streamIndex)`. -/
def Impl.synchronize (P : Platform) (g : Impl) (streamIndex : Nat) : Except Fault Impl :=
  match g.stream streamIndex with
  | .error f => .error f
  | .ok st => g.issue P (Call.cudaStreamSynchronize st)

/-- The method `Impl::deviceSynchronize()`. -/
def Impl.deviceSynchronize (P : Platform) (g : Impl) : Except Fault Impl :=
  g.issue P Call.cudaDeviceSynchronize

/-! ## Teardown -/

/-- Loop of the destructor flushing the streams: `synchronize(ii)`. -/
def Impl.syncLoop (P : Platform) : List Nat → Impl → Except Fault Impl
  | [], g => .ok g
  | ii :: rest, g =>
    match g.synchronize P ii with
    | .error f => .error f
    | .ok g1 => Impl.syncLoop P rest g1

/-- Destruction of a `MemoryVectorPtr` (`clear()` or the destructor of the vector):
each `SharedMem` runs its deleter on its address, first entry first; the return
code of the deleter is not looked at. -/
def releaseAll (P : Platform) (deleter : Addr → Call) : List Addr → List Event → List Event
  | [], log => log
  | p :: ps, log =>
    releaseAll P deleter ps (log ++ [Event.gpu (deleter p) (P log (deleter p))])

/-- Loop of the destructor: `CCT_CHECK_GPU(cudaStreamDestroy(streamPtr[ii]))`. -/
def Impl.destroyStreams (P : Platform) : List Nat → Impl → Except Fault Impl
  | [], g => .ok g
  | ii :: rest, g =>
    match vecAt g.streamPtr ii with
    | .error f => .error f
    | .ok st =>
      match g.issue P (Call.cudaStreamDestroy st) with
      | .error f => .error f
      | .ok g1 => Impl.destroyStreams P rest g1

/-- Loop of the destructor destroying `eventStart[ii]` and then `eventStop[ii]`. -/
def Impl.destroyEvents (P : Platform) : List Nat → Impl → Except Fault Impl
  | [], g => .ok g
  | ii :: rest, g =>
    match vecAt g.eventStart ii with
    | .error f => .error f
    | .ok ev1 =>
      match g.issue P (Call.cudaEventDestroy ev1) with
      | .error f => .error f
      | .ok g1 =>
        match vecAt g1.eventStop ii with
        | .error f => .error f
        | .ok ev2 =>
          match g1.issue P (Call.cudaEventDestroy ev2) with
          | .error f => .error f
          | .ok g2 => Impl.destroyEvents P rest g2

/-- The statement `thrustCache.clear()` of the destructor: `clear` of the
`std::vector<ThrustAllocator>`.  It destroys the allocators; `ThrustAllocator` declares
no destructor, so its two maps, which hold raw `char*` values, are dropped and nothing
else happens. -/
def Impl.clearThrustCache (g : Impl) : Impl := { g with thrustCache := [] }

/-- The statement `hostPtr.clear()`. -/
def Impl.clearHostPtr (P : Platform) (g : Impl) : Impl :=
  { g with log := releaseAll P Call.cudaFreeHost g.hostPtr g.log, hostPtr := [] }

/-- The statement `gpuPtr.clear()`. -/
def Impl.clearGpuPtr (P : Platform) (g : Impl) : Impl :=
  { g with log := releaseAll P Call.cudaFree g.gpuPtr g.log, gpuPtr := [] }

/-- The body of the destructor `Impl::~Impl()`. -/
def Impl.dtorBody (P : Platform) (g : Impl) : Except Fault Impl :=
  if g.device.isNone then .ok g
  else
    match Impl.syncLoop P (List.range NumStreams) g.clearThrustCache with
    | .error f => .error f
    | .ok g2 =>
      match Impl.destroyStreams P (List.range NumStreams) ((g2.clearHostPtr P).clearGpuPtr P) with
      | .error f => .error f
      | .ok g5 =>
        match Impl.destroyEvents P (List.range NumEvents) g5 with
        | .error f => .error f
        | .ok g6 => .ok { g6 with log := g6.log ++ [Event.trace] }

/-- What the language does after the body of a destructor: the data members are
destroyed in the reverse order of their declaration in `class Impl`, that is
`thrustCache`, `gpuPtr`, `hostPtr`, `streamPtr`, `eventStop`, `eventStart`.  The vectors
of raw handles and the caches go without a platform call; the entries that `gpuPtr`
and `hostPtr` still hold run their deleters.  (What destroying the `DevicePtr` does is
outside the two source files.) -/
def Impl.destroyMembers (P : Platform) (g : Impl) : Impl :=
  { ((g.clearThrustCache.clearGpuPtr P).clearHostPtr P) with
    streamPtr := [], eventStop := [], eventStart := [] }

/-- Destruction of the manager: the body of `Impl::~Impl()` followed by the
destruction of the data members.  The outcome is the journal of the process. -/
def Impl.destroy (P : Platform) (g : Impl) : Except Fault (List Event) :=
  match g.dtorBody P with
  | .error f => .error f
  | .ok g1 => .ok (g1.destroyMembers P).log

/-! ## Sequences of calls on the manager -/

/-- Calls on a manager: the methods defined in `CudaImpl.cpp` and the calls on one of
its caches. -/
inductive Op where
  | alloc (sizeofT size : Nat) (type : MemType)
  | free (ptr : Addr)
  | copy (sizeofT : Nat) (dst src : Addr) (numElements : Nat) (type : MemType) (index : Nat)
  | set (sizeofT : Nat) (dst : Addr) (value : Int) (numElements : Nat) (index : Nat)
  | streamWait (streamIndex eventIndex : Nat)
  | timerStart (eventIndex streamIndex : Nat)
  | timerStop (eventIndex streamIndex : Nat)
  | timerElapsed (eventIndex : Nat)
  | synchronize (streamIndex : Nat)
  | deviceSynchronize
  | cacheAllocate (cache : Nat) (size : Int)
  | cacheDeallocate (cache : Nat) (ptr : Addr)
  deriving DecidableEq, Repr

/-- One call on the manager, results dropped. -/
def Impl.step (P : Platform) (g : Impl) : Op → Except Fault Impl
  | .alloc sizeofT size type =>
    match g.alloc P sizeofT size type with
    | .error f => .error f
    | .ok (_, g1) => .ok g1
  | .free ptr => .ok (g.free P ptr)
  | .copy sizeofT dst src n type index => g.copy P sizeofT dst src n type index
  | .set sizeofT dst value n index => g.set P sizeofT dst value n index
  | .streamWait si ei => g.streamWait P si ei
  | .timerStart ei si => g.timerStart P ei si
  | .timerStop ei si => g.timerStop P ei si
  | .timerElapsed ei =>
    match g.timerElapsed P ei with
    | .error f => .error f
    | .ok (_, g1) => .ok g1
  | .synchronize si => g.synchronize P si
  | .deviceSynchronize => g.deviceSynchronize P
  | .cacheAllocate i size =>
    match g.thrustCache[i]? with
    | none => .error Fault.outOfBounds
    | some t =>
      match t.allocate P g size with
      | .error f => .error f
      | .ok (_, t1, g1) => .ok { g1 with thrustCache := g1.thrustCache.set i t1 }
  | .cacheDeallocate i ptr =>
    match g.thrustCache[i]? with
    | none => .error Fault.outOfBounds
    | some t =>
      .ok { (t.deallocate g ptr).2 with
            thrustCache := (t.deallocate g ptr).2.thrustCache.set i (t.deallocate g ptr).1 }

/-- A sequence of calls on the manager. -/
def Impl.run (P : Platform) : Impl → List Op → Except Fault Impl
  | g, [] => .ok g
  | g, op :: ops =>
    match g.step P op with
    | .error f => .error f
    | .ok g1 => Impl.run P g1 ops

/-- The handle vectors and the device of `g1` are those of `g`. -/
def Impl.sameHandles (g g1 : Impl) : Prop :=
  g1.streamPtr = g.streamPtr ∧ g1.eventStart = g.eventStart ∧ g1.eventStop = g.eventStop ∧
    g1.device = g.device

/-- The calls destroying the pairs of markers, pair by pair. -/
def eventDestroyCalls (starts stops : List Handle) : List Call :=
  (List.zip starts stops).flatMap
    (fun p => [Call.cudaEventDestroy p.1, Call.cudaEventDestroy p.2])

/-- Addresses held by the caches of a manager. -/
def Impl.cached (g : Impl) : List Addr := g.thrustCache.flatMap ThrustAllocator.held

/-- A platform on which every call succeeds and which hands out a new value at
every call. -/
def demoPlatform : Platform := fun log _ => ⟨0, 4096 + 256 * log.length⟩

/-- The manager that `Impl::Impl` builds on `demoPlatform` for device 0 in a process
with an empty journal (see `demoImpl_new`). -/
def demoImpl : Impl :=
  { device := some 0,
    eventStart := [5376, 5888, 6400, 6912, 7424],
    eventStop := [5632, 6144, 6656, 7168, 7680],
    streamPtr := [4096, 4352, 4608, 4864, 5120],
    hostPtr := [],
    gpuPtr := [],
    thrustCache := List.replicate 5 ThrustAllocator.empty,
    log := (List.replicate 5 Call.cudaStreamCreateWithFlags ++
        List.replicate 10 Call.cudaEventCreate).enum.map
      (fun ic => Event.gpu ic.2 ⟨0, 4096 + 256 * ic.1⟩) }

/-- The cache and the manager after two allocations of 1024 bytes and the release of
the first block, starting from `demoImpl` and an empty cache. -/
def reuseScenario : Except Fault (ThrustAllocator × Impl) :=
  ThrustAllocator.run demoPlatform ThrustAllocator.empty demoImpl
    [CacheOp.allocate 1024, CacheOp.allocate 1024, CacheOp.deallocate 7936]

/-- The cache of `reuseScenario`: the block at 7936 is free, the block at 8192 is
checked out. -/
def reuseCache : ThrustAllocator :=
  { freeBlockMap := [(1024, 7936)], allocatedBlockMap := [(8192, 1024)] }

/-- A cache with three free blocks, two of them of 1024 bytes, and one block checked
out. -/
def hitCache : ThrustAllocator :=
  { freeBlockMap := [(512, 7000), (1024, 7936), (1024, 8192)],
    allocatedBlockMap := [(9000, 2048)] }

/-- The manager of `reuseScenario`: both blocks are tracked in the device list. -/
def reuseImpl : Impl :=
  { demoImpl with
    gpuPtr := [7936, 8192],
    log := demoImpl.log ++ [Event.gpu (Call.cudaMalloc 1024) ⟨0, 7936⟩,
      Event.gpu (Call.cudaMalloc 1024) ⟨0, 8192⟩] }

/-- A manager built on `demoPlatform` without a device (a null `DevicePtr`) that has
allocated one device block of 64 bytes. -/
def noDeviceImpl : Impl :=
  { demoImpl with
    device := none,
    gpuPtr := [7936],
    log := demoImpl.log ++ [Event.gpu (Call.cudaMalloc 64) ⟨0, 7936⟩] }

/-- The manager `demoImpl` after its first cache has served requests of 1024 and 512
bytes and taken the first block back: the cache holds 7936 (free) and 8192 (checked
out), and the device list tracks both. -/
def cachedImpl : Impl :=
  { demoImpl with
    gpuPtr := [7936, 8192],
    thrustCache := ⟨[(1024, 7936)], [(8192, 512)]⟩ :: List.replicate 4 ThrustAllocator.empty,
    log := demoImpl.log ++ [Event.gpu (Call.cudaMalloc 1024) ⟨0, 7936⟩,
      Event.gpu (Call.cudaMalloc 512) ⟨0, 8192⟩] }

/-- Whether a call on the manager is a call of `Impl::free`. -/
def Op.isFree : Op → Bool
  | .free _ => true
  | _ => false

/-- A platform whose device allocations never hand out `NULL`. -/
def Platform.noNull (P : Platform) : Prop := ∀ log n, (P log (Call.cudaMalloc n)).out ≠ 0

/-- Every address held by a cache of the manager is tracked in the device list. -/
def Impl.cachedTracked (g : Impl) : Prop := ∀ a ∈ g.cached, a ∈ g.gpuPtr

/-- The manager `demoImpl` after its first cache has served a request of 1024 bytes
and the block was then given to `Impl::free`: the cache still holds 7936 as checked
out, the device list is empty. -/
def danglingImpl : Impl :=
  { demoImpl with
    thrustCache := ⟨[], [(7936, 1024)]⟩ :: List.replicate 4 ThrustAllocator.empty,
    log := demoImpl.log ++ [Event.gpu (Call.cudaMalloc 1024) ⟨0, 7936⟩,
      Event.gpu (Call.cudaFree 7936) ⟨0, 8192⟩] }

/-- A platform for which every call succeeds. -/
def Platform.succeeds (P : Platform) : Prop := ∀ log c, (P log c).rc = 0

/-! ## Facts about the two containers -/

theorem mmEmplace_perm (key : Int) (ptr : Addr) (m : List (Int × Addr)) :
    (mmEmplace key ptr m).Perm ((key, ptr) :: m) := by
  induction m with
  | nil => simp [mmEmplace]
  | cons e es ih =>
    unfold mmEmplace
    split
    · exact List.Perm.refl _
    · exact (List.Perm.cons e ih).trans (List.Perm.swap _ _ _)

theorem mmEmplace_split (key : Int) (ptr : Addr) (m : List (Int × Addr)) :
    ∃ l1 l2, m = l1 ++ l2 ∧ mmEmplace key ptr m = l1 ++ (key, ptr) :: l2 := by
  induction m with
  | nil => exact ⟨[], [], rfl, rfl⟩
  | cons e es ih =>
    unfold mmEmplace
    split
    · exact ⟨[], e :: es, rfl, rfl⟩
    · obtain ⟨l1, l2, h1, h2⟩ := ih
      exact ⟨e :: l1, l2, by simp [h1], by simp [h2]⟩

theorem mem_mmEmplace (key : Int) (ptr : Addr) (m : List (Int × Addr)) (e : Int × Addr) :
    e ∈ mmEmplace key ptr m ↔ e = (key, ptr) ∨ e ∈ m := by
  rw [(mmEmplace_perm key ptr m).mem_iff]; simp

theorem mmFind_some {key : Int} {m : List (Int × Addr)} {e : Int × Addr}
    (h : mmFind key m = some e) : e.1 = key ∧ e ∈ m := by
  unfold mmFind at h
  have h1 := List.find?_some h
  have h2 := List.mem_of_find?_eq_some h
  exact ⟨by simpa using h1, h2⟩

theorem mmFind_eq_none {key : Int} {m : List (Int × Addr)} :
    mmFind key m = none ↔ ∀ e ∈ m, e.1 ≠ key := by
  unfold mmFind
  simp [List.find?_eq_none]

theorem mmFind_isSome_of_mem {key : Int} {m : List (Int × Addr)} {e : Int × Addr}
    (hm : e ∈ m) (hk : e.1 = key) : ∃ f, mmFind key m = some f := by
  cases h : mmFind key m with
  | some f => exact ⟨f, rfl⟩
  | none => exact absurd hk (mmFind_eq_none.mp h e hm)

theorem mmFind_cons (k : Int) (x : Int × Addr) (xs : List (Int × Addr)) :
    mmFind k (x :: xs) = if x.1 = k then some x else mmFind k xs := by
  by_cases h : x.1 = k
  · have hb : (x.1 == k) = true := by simpa using h
    simp [mmFind, List.find?_cons, hb, h]
  · have hb : (x.1 == k) = false := by simpa using h
    simp [mmFind, List.find?_cons, hb, h]

theorem mmEraseFound_cons (k : Int) (x : Int × Addr) (xs : List (Int × Addr)) :
    mmEraseFound k (x :: xs) = if x.1 = k then xs else x :: mmEraseFound k xs := by
  by_cases h : x.1 = k
  · have hb : (x.1 == k) = true := by simpa using h
    simp [mmEraseFound, List.eraseP_cons, hb, h]
  · have hb : (x.1 == k) = false := by simpa using h
    simp [mmEraseFound, List.eraseP_cons, hb, h]

/-- What `find` followed by `erase` does to the multimap: the found entry is the
first one with that key, and exactly that entry is taken out. -/
theorem mmFind_erase_split {key : Int} {m : List (Int × Addr)} {e : Int × Addr}
    (h : mmFind key m = some e) :
    ∃ l1 l2, m = l1 ++ e :: l2 ∧ (∀ x ∈ l1, x.1 ≠ key) ∧ mmEraseFound key m = l1 ++ l2 := by
  induction m with
  | nil => simp [mmFind] at h
  | cons x xs ih =>
    rw [mmFind_cons] at h
    rw [mmEraseFound_cons]
    by_cases hx : x.1 = key
    · rw [if_pos hx] at h
      rw [if_pos hx]
      cases h
      exact ⟨[], xs, rfl, by simp, rfl⟩
    · rw [if_neg hx] at h
      rw [if_neg hx]
      obtain ⟨l1, l2, h3, h4, h5⟩ := ih h
      refine ⟨x :: l1, l2, by simp [h3], ?_, by simp [h5]⟩
      intro y hy
      rcases List.mem_cons.mp hy with rfl | hy
      · exact hx
      · exact h4 y hy

theorem mmFind_mmEmplace_absent {key : Int} {ptr : Addr} {m : List (Int × Addr)}
    (h : ∀ e ∈ m, e.1 ≠ key) : mmFind key (mmEmplace key ptr m) = some (key, ptr) := by
  induction m with
  | nil => simp [mmEmplace, mmFind_cons]
  | cons x xs ih =>
    have hx : x.1 ≠ key := h x (List.mem_cons_self _ _)
    have hxs : ∀ e ∈ xs, e.1 ≠ key := fun e he => h e (List.mem_cons_of_mem _ he)
    unfold mmEmplace
    split
    · simp [mmFind_cons]
    · rw [mmFind_cons, if_neg hx]
      exact ih hxs

theorem mapFind_some {ptr : Addr} {m : List (Addr × Int)} {e : Addr × Int}
    (h : mapFind ptr m = some e) : e.1 = ptr ∧ e ∈ m := by
  unfold mapFind at h
  have h1 := List.find?_some h
  have h2 := List.mem_of_find?_eq_some h
  exact ⟨by simpa using h1, h2⟩

theorem mapFind_eq_none {ptr : Addr} {m : List (Addr × Int)} :
    mapFind ptr m = none ↔ ptr ∉ m.map Prod.fst := by
  unfold mapFind
  simp only [List.find?_eq_none, List.mem_map, not_exists, not_and]
  constructor
  · intro h e he heq
    have := h e he
    simp [heq] at this
  · intro h e he
    have := h e he
    simpa using this

theorem mapFind_cons (q : Addr) (x : Addr × Int) (xs : List (Addr × Int)) :
    mapFind q (x :: xs) = if x.1 = q then some x else mapFind q xs := by
  by_cases h : x.1 = q
  · have hb : (x.1 == q) = true := by simpa using h
    simp [mapFind, List.find?_cons, hb, h]
  · have hb : (x.1 == q) = false := by simpa using h
    simp [mapFind, List.find?_cons, hb, h]

theorem mapEraseFound_cons (p : Addr) (x : Addr × Int) (xs : List (Addr × Int)) :
    mapEraseFound p (x :: xs) = if x.1 = p then xs else x :: mapEraseFound p xs := by
  by_cases h : x.1 = p
  · have hb : (x.1 == p) = true := by simpa using h
    simp [mapEraseFound, List.eraseP_cons, hb, h]
  · have hb : (x.1 == p) = false := by simpa using h
    simp [mapEraseFound, List.eraseP_cons, hb, h]

theorem mapWF_nodup {m : List (Addr × Int)} (h : mapWF m) : (m.map Prod.fst).Nodup :=
  List.Pairwise.imp (fun hab => Nat.ne_of_lt hab) h

theorem mapFind_erase_ne {p q : Addr} (m : List (Addr × Int)) (h : q ≠ p) :
    mapFind q (mapEraseFound p m) = mapFind q m := by
  induction m with
  | nil => rfl
  | cons x xs ih =>
    rw [mapEraseFound_cons]
    split
    · rename_i hx
      rw [mapFind_cons, if_neg (by rw [hx]; exact fun h2 => h h2.symm)]
    · rw [mapFind_cons, mapFind_cons, ih]

theorem mapFind_erase_self {p : Addr} {m : List (Addr × Int)} (h : mapWF m) :
    mapFind p (mapEraseFound p m) = none := by
  induction m with
  | nil => rfl
  | cons x xs ih =>
    have hxs : mapWF xs := (List.pairwise_cons.mp h).2
    rw [mapEraseFound_cons]
    split
    · rename_i hx
      rw [mapFind_eq_none]
      intro hmem
      have := (List.pairwise_cons.mp h).1 p hmem
      exact absurd hx (Nat.ne_of_lt this)
    · rename_i hx
      rw [mapFind_cons, if_neg hx]
      exact ih hxs

theorem mapEraseFound_perm {p : Addr} {m : List (Addr × Int)} {e : Addr × Int}
    (h : mapFind p m = some e) : m.Perm (e :: mapEraseFound p m) := by
  induction m with
  | nil => simp [mapFind] at h
  | cons x xs ih =>
    rw [mapFind_cons] at h
    rw [mapEraseFound_cons]
    split
    · rename_i hx
      rw [if_pos hx] at h
      cases h
      exact List.Perm.refl _
    · rename_i hx
      rw [if_neg hx] at h
      exact (List.Perm.cons x (ih h)).trans (List.Perm.swap _ _ _)

theorem mapEraseFound_wf {p : Addr} {m : List (Addr × Int)} (h : mapWF m) :
    mapWF (mapEraseFound p m) := by
  unfold mapWF at *
  exact List.Pairwise.sublist ((List.eraseP_sublist m).map Prod.fst) h

theorem mem_mapEmplace {p : Addr} {s : Int} {m : List (Addr × Int)} {e : Addr × Int}
    (h : e ∈ mapEmplace p s m) : e = (p, s) ∨ e ∈ m := by
  induction m with
  | nil => simpa [mapEmplace] using h
  | cons x xs ih =>
    unfold mapEmplace at h
    split at h
    · rcases List.mem_cons.mp h with h | h
      · exact Or.inl h
      · exact Or.inr h
    · split at h
      · exact Or.inr h
      · rcases List.mem_cons.mp h with h | h
        · exact Or.inr (h ▸ List.mem_cons_self _ _)
        · rcases ih h with h | h
          · exact Or.inl h
          · exact Or.inr (List.mem_cons_of_mem _ h)

theorem mapEmplace_wf {p : Addr} {s : Int} {m : List (Addr × Int)} (h : mapWF m) :
    mapWF (mapEmplace p s m) := by
  induction m with
  | nil => simp [mapEmplace, mapWF]
  | cons x xs ih =>
    have hx := (List.pairwise_cons.mp h).1
    have hxs : mapWF xs := (List.pairwise_cons.mp h).2
    unfold mapEmplace
    split
    · rename_i hlt
      unfold mapWF at *
      simp only [List.map_cons, List.pairwise_cons]
      refine ⟨?_, by simpa using h⟩
      intro a ha
      rcases List.mem_cons.mp ha with rfl | ha
      · exact hlt
      · exact Nat.lt_trans hlt (hx a ha)
    · split
      · exact h
      · rename_i h1 h2
        have ih2 := ih hxs
        unfold mapWF at *
        simp only [List.map_cons, List.pairwise_cons]
        refine ⟨?_, ih2⟩
        intro a ha
        obtain ⟨e, he, rfl⟩ := List.mem_map.mp ha
        rcases mem_mapEmplace he with rfl | he
        · exact Nat.lt_of_le_of_ne (Nat.le_of_not_lt h1) (fun h3 => h2 h3.symm)
        · exact hx e.1 (List.mem_map_of_mem _ he)

theorem mapEmplace_perm_absent {p : Addr} {s : Int} {m : List (Addr × Int)}
    (h : p ∉ m.map Prod.fst) : (mapEmplace p s m).Perm ((p, s) :: m) := by
  induction m with
  | nil => simp [mapEmplace]
  | cons x xs ih =>
    have hx : p ≠ x.1 := fun h2 => h (by simp [h2])
    have hxs : p ∉ xs.map Prod.fst := fun h2 => h (by simp at h2 ⊢; exact Or.inr h2)
    show (if p < x.1 then (p, s) :: x :: xs
      else if p = x.1 then x :: xs else x :: mapEmplace p s xs).Perm _
    rw [if_neg hx]
    split
    · exact List.Perm.refl _
    · exact (List.Perm.cons x (ih hxs)).trans (List.Perm.swap _ _ _)

theorem mapFind_mapEmplace_absent {p : Addr} {s : Int} {m : List (Addr × Int)}
    (h : p ∉ m.map Prod.fst) : mapFind p (mapEmplace p s m) = some (p, s) := by
  induction m with
  | nil => simp [mapEmplace, mapFind]
  | cons x xs ih =>
    have hx : p ≠ x.1 := fun h2 => h (by simp [h2])
    have hxs : p ∉ xs.map Prod.fst := fun h2 => h (by simp at h2 ⊢; exact Or.inr h2)
    show mapFind p (if p < x.1 then (p, s) :: x :: xs
      else if p = x.1 then x :: xs else x :: mapEmplace p s xs) = _
    rw [if_neg hx]
    split
    · simp [mapFind_cons]
    · rw [mapFind_cons, if_neg (fun h2 => hx h2.symm)]
      exact ih hxs

/-! ## Facts about single calls -/

theorem toSizeT_lt (n : Int) : toSizeT n < 2 ^ 64 := by
  unfold toSizeT
  have h1 : (0 : Int) ≤ n % 2 ^ 64 := Int.emod_nonneg _ (by norm_num)
  have h2 : n % 2 ^ 64 < 2 ^ 64 := Int.emod_lt_of_pos _ (by norm_num)
  omega

theorem toSizeT_of_nonneg {n : Int} (h0 : 0 ≤ n) (h1 : n < 2 ^ 64) : (toSizeT n : Int) = n := by
  unfold toSizeT
  rw [Int.emod_eq_of_lt h0 h1]
  exact Int.toNat_of_nonneg h0

theorem toSizeT_injOn {m n : Int} (hm : isPtrdiff m) (hn : isPtrdiff n)
    (h : toSizeT m = toSizeT n) : m = n := by
  unfold toSizeT at h
  unfold isPtrdiff at hm hn
  have h1 : (0 : Int) ≤ m % 2 ^ 64 := Int.emod_nonneg _ (by norm_num)
  have h2 : (0 : Int) ≤ n % 2 ^ 64 := Int.emod_nonneg _ (by norm_num)
  have h3 : m % 2 ^ 64 = n % 2 ^ 64 := by omega
  omega

theorem alloc_char (P : Platform) (g : Impl) (size : Int) :
    g.alloc P 1 (toSizeT size) MemType.GPU = g.allocate P (toSizeT size) MemType.GPU := by
  unfold Impl.alloc
  rw [Nat.mul_one, Nat.mod_eq_of_lt (toSizeT_lt size)]

theorem allocate_gpu_ok {P : Platform} {g : Impl} {n : Nat}
    (h : (P g.log (Call.cudaMalloc n)).rc = 0) :
    g.allocate P n MemType.GPU =
      .ok ((P g.log (Call.cudaMalloc n)).out,
        { g with
          log := g.log ++ [Event.gpu (Call.cudaMalloc n) (P g.log (Call.cudaMalloc n))],
          gpuPtr := if (P g.log (Call.cudaMalloc n)).out ≠ 0
            then g.gpuPtr ++ [(P g.log (Call.cudaMalloc n)).out] else g.gpuPtr }) := by
  simp [Impl.allocate, checkGpu, h]

theorem allocate_gpu_exit {P : Platform} {g : Impl} {n : Nat}
    (h : (P g.log (Call.cudaMalloc n)).rc ≠ 0) :
    g.allocate P n MemType.GPU = .error Fault.exit := by
  simp [Impl.allocate, checkGpu, h]

theorem allocate_host_ok {P : Platform} {g : Impl} {n : Nat} {type : MemType}
    (ht : type ≠ MemType.GPU) (h : (P g.log (Call.cudaMallocHost n)).rc = 0) :
    g.allocate P n type =
      .ok ((P g.log (Call.cudaMallocHost n)).out,
        { g with
          log := g.log ++ [Event.gpu (Call.cudaMallocHost n) (P g.log (Call.cudaMallocHost n))],
          hostPtr := if (P g.log (Call.cudaMallocHost n)).out ≠ 0
            then g.hostPtr ++ [(P g.log (Call.cudaMallocHost n)).out] else g.hostPtr }) := by
  simp [Impl.allocate, checkGpu, h, ht]

theorem allocate_host_exit {P : Platform} {g : Impl} {n : Nat} {type : MemType}
    (ht : type ≠ MemType.GPU) (h : (P g.log (Call.cudaMallocHost n)).rc ≠ 0) :
    g.allocate P n type = .error Fault.exit := by
  simp [Impl.allocate, checkGpu, h, ht]

theorem cache_allocate_hit {P : Platform} {t : ThrustAllocator} {g : Impl} {size : Int}
    {e : Int × Addr} (h : mmFind size t.freeBlockMap = some e) :
    t.allocate P g size =
      .ok (e.2, { freeBlockMap := mmEraseFound size t.freeBlockMap,
                  allocatedBlockMap := mapEmplace e.2 size t.allocatedBlockMap }, g) := by
  simp [ThrustAllocator.allocate, h]

theorem cache_allocate_miss_ok {P : Platform} {t : ThrustAllocator} {g : Impl} {size : Int}
    (h : mmFind size t.freeBlockMap = none)
    (hrc : (P g.log (Call.cudaMalloc (toSizeT size))).rc = 0) :
    t.allocate P g size =
      .ok ((P g.log (Call.cudaMalloc (toSizeT size))).out,
        { freeBlockMap := t.freeBlockMap,
          allocatedBlockMap :=
            mapEmplace (P g.log (Call.cudaMalloc (toSizeT size))).out size t.allocatedBlockMap },
        { g with
          log := g.log ++ [Event.gpu (Call.cudaMalloc (toSizeT size))
            (P g.log (Call.cudaMalloc (toSizeT size)))],
          gpuPtr := if (P g.log (Call.cudaMalloc (toSizeT size))).out ≠ 0
            then g.gpuPtr ++ [(P g.log (Call.cudaMalloc (toSizeT size))).out]
            else g.gpuPtr }) := by
  unfold ThrustAllocator.allocate
  rw [h, alloc_char, allocate_gpu_ok hrc]

theorem cache_allocate_miss_exit {P : Platform} {t : ThrustAllocator} {g : Impl} {size : Int}
    (h : mmFind size t.freeBlockMap = none)
    (hrc : (P g.log (Call.cudaMalloc (toSizeT size))).rc ≠ 0) :
    t.allocate P g size = .error Fault.exit := by
  unfold ThrustAllocator.allocate
  rw [h, alloc_char, allocate_gpu_exit hrc]

theorem cache_deallocate_found {t : ThrustAllocator} {g : Impl} {p : Addr} {e : Addr × Int}
    (h : mapFind p t.allocatedBlockMap = some e) :
    t.deallocate g p =
      ({ freeBlockMap := mmEmplace e.2 e.1 t.freeBlockMap,
         allocatedBlockMap := mapEraseFound p t.allocatedBlockMap }, g) := by
  simp [ThrustAllocator.deallocate, h]

theorem cache_deallocate_unknown {t : ThrustAllocator} {g : Impl} {p : Addr}
    (h : mapFind p t.allocatedBlockMap = none) :
    t.deallocate g p = (t, { g with log := g.log ++ [Event.error] }) := by
  simp [ThrustAllocator.deallocate, h]

theorem requests_append (l1 l2 : List Event) : requests (l1 ++ l2) = requests l1 ++ requests l2 := by
  induction l1 with
  | nil => rfl
  | cons e es ih =>
    cases e with
    | gpu c r => cases c <;> simp [requests, ih]
    | warn p => simp [requests, ih]
    | error => simp [requests, ih]
    | trace => simp [requests, ih]

/-! ## The caching sub-allocator: single calls -/

/-- Claim C2.  `ThrustAllocator::allocate(size)`: when the Free Block Map has an entry
whose key is `size`, the first such entry is taken out of the map (every other entry
stays), its address is returned and neither the manager nor the journal changes (no
platform call); otherwise exactly one `cudaMalloc` of `size` bytes (converted to
`size_t`) is issued, and if it succeeds its result is returned and the Free Block
Map is left as it was (if it fails, `CCT_CHECK_GPU` ends the process).  In both cases
the returned address maps to `size` in the Allocated Block Map afterwards, provided it
was not a key there.  Scenario: on a platform that succeeds, two allocations of 1024
bytes, the deallocation of both and a third allocation of 1024 bytes leave the number
of platform allocations at 2. -/
theorem C2_allocate_hit_or_miss (P : Platform) (t : ThrustAllocator) (g : Impl) (size : Int) :
    ((∃ e ∈ t.freeBlockMap, e.1 = size) →
      ∃ a l1 l2, t.freeBlockMap = l1 ++ (size, a) :: l2 ∧ (∀ x ∈ l1, x.1 ≠ size) ∧
        t.allocate P g size =
          .ok (a, { freeBlockMap := l1 ++ l2,
                    allocatedBlockMap := mapEmplace a size t.allocatedBlockMap }, g)) ∧
    ((∀ e ∈ t.freeBlockMap, e.1 ≠ size) →
      ((P g.log (Call.cudaMalloc (toSizeT size))).rc = 0 →
        t.allocate P g size =
          .ok ((P g.log (Call.cudaMalloc (toSizeT size))).out,
            { freeBlockMap := t.freeBlockMap,
              allocatedBlockMap := mapEmplace (P g.log (Call.cudaMalloc (toSizeT size))).out
                size t.allocatedBlockMap },
            { g with
              log := g.log ++ [Event.gpu (Call.cudaMalloc (toSizeT size))
                (P g.log (Call.cudaMalloc (toSizeT size)))],
              gpuPtr := if (P g.log (Call.cudaMalloc (toSizeT size))).out ≠ 0
                then g.gpuPtr ++ [(P g.log (Call.cudaMalloc (toSizeT size))).out]
                else g.gpuPtr })) ∧
      ((P g.log (Call.cudaMalloc (toSizeT size))).rc ≠ 0 →
        t.allocate P g size = .error Fault.exit)) ∧
    (0 ≤ size → size < 2 ^ 63 → (toSizeT size : Int) = size) ∧
    (∀ a t1 g1, t.allocate P g size = .ok (a, t1, g1) →
      a ∉ t.allocatedBlockMap.map Prod.fst →
      mapFind a t1.allocatedBlockMap = some (a, size)) ∧
    ((P g.log (Call.cudaMalloc 1024)).rc = 0 →
      (P (g.log ++ [Event.gpu (Call.cudaMalloc 1024) (P g.log (Call.cudaMalloc 1024))])
        (Call.cudaMalloc 1024)).rc = 0 →
      ∃ t1 g1, ThrustAllocator.run P ThrustAllocator.empty g
          [CacheOp.allocate 1024, CacheOp.allocate 1024,
           CacheOp.deallocate (P g.log (Call.cudaMalloc 1024)).out,
           CacheOp.deallocate
             (P (g.log ++ [Event.gpu (Call.cudaMalloc 1024) (P g.log (Call.cudaMalloc 1024))])
               (Call.cudaMalloc 1024)).out,
           CacheOp.allocate 1024] = .ok (t1, g1) ∧
        (requests g1.log).length = (requests g.log).length + 2) := by
  refine ⟨?_, ?_, ?_, ?_, ?_⟩
  · rintro ⟨e, he, hk⟩
    obtain ⟨f, hf⟩ := mmFind_isSome_of_mem he hk
    obtain ⟨l1, l2, h1, h2, h3⟩ := mmFind_erase_split hf
    have hf1 : f = (size, f.2) := Prod.ext (mmFind_some hf).1 rfl
    refine ⟨f.2, l1, l2, ?_, h2, ?_⟩
    · rw [h1, ← hf1]
    · rw [cache_allocate_hit hf, h3]
  · intro h
    have hnone : mmFind size t.freeBlockMap = none := mmFind_eq_none.mpr h
    exact ⟨fun hrc => cache_allocate_miss_ok hnone hrc,
      fun hrc => cache_allocate_miss_exit hnone hrc⟩
  · intro h0 h1
    exact toSizeT_of_nonneg h0 (by omega)
  · intro a t1 g1 h hnew
    cases hf : mmFind size t.freeBlockMap with
    | some f =>
      rw [cache_allocate_hit hf] at h
      simp only [Except.ok.injEq, Prod.mk.injEq] at h
      obtain ⟨rfl, rfl, rfl⟩ := h
      exact mapFind_mapEmplace_absent hnew
    | none =>
      by_cases hrc : (P g.log (Call.cudaMalloc (toSizeT size))).rc = 0
      · rw [cache_allocate_miss_ok hf hrc] at h
        simp only [Except.ok.injEq, Prod.mk.injEq] at h
        obtain ⟨rfl, rfl, rfl⟩ := h
        exact mapFind_mapEmplace_absent hnew
      · rw [cache_allocate_miss_exit hf hrc] at h
        cases h
  · intro h1 h2
    have hs : toSizeT 1024 = 1024 := by decide
    generalize ha1 : (P g.log (Call.cudaMalloc 1024)) = r1 at *
    generalize ha2 : (P (g.log ++ [Event.gpu (Call.cudaMalloc 1024) r1])
      (Call.cudaMalloc 1024)) = r2 at *
    rcases Nat.lt_trichotomy r2.out r1.out with hlt | heq | hgt
    · simp [ThrustAllocator.run, ThrustAllocator.step, ThrustAllocator.allocate,
        ThrustAllocator.deallocate, ThrustAllocator.empty, Impl.alloc, Impl.allocate, checkGpu,
        mmFind, mapFind, mapEmplace, mmEmplace, mmEraseFound, mapEraseFound, hs, ha1, ha2, h1, h2,
        hlt, requests_append, requests, Nat.ne_of_lt hlt, Nat.ne_of_gt hlt]
      exact ⟨_, _, ⟨rfl, rfl⟩, by simp [requests_append, requests]⟩
    · simp [ThrustAllocator.run, ThrustAllocator.step, ThrustAllocator.allocate,
        ThrustAllocator.deallocate, ThrustAllocator.empty, Impl.alloc, Impl.allocate, checkGpu,
        mmFind, mapFind, mapEmplace, mmEmplace, mmEraseFound, mapEraseFound, hs, ha1, ha2, h1, h2,
        heq, requests_append, requests]
      exact ⟨_, _, ⟨rfl, rfl⟩, by simp [requests_append, requests]⟩
    · simp [ThrustAllocator.run, ThrustAllocator.step, ThrustAllocator.allocate,
        ThrustAllocator.deallocate, ThrustAllocator.empty, Impl.alloc, Impl.allocate, checkGpu,
        mmFind, mapFind, mapEmplace, mmEmplace, mmEraseFound, mapEraseFound, hs, ha1, ha2, h1, h2,
        Nat.lt_asymm hgt, requests_append, requests, Nat.ne_of_lt hgt, Nat.ne_of_gt hgt]
      exact ⟨_, _, ⟨rfl, rfl⟩, by simp [requests_append, requests]⟩

theorem demoImpl_new : Impl.new demoPlatform (some 0) [] = .ok demoImpl := by rfl

theorem reuseScenario_eq : reuseScenario = .ok (reuseCache, reuseImpl) := by rfl

/-- Claim C2, at concrete inputs: a cache with two free blocks of 1024 bytes (hit), the
same cache asked for 64 bytes (miss), and the scenario on `demoImpl`. -/
theorem C2_allocate_hit_or_miss_witness :
    ((∃ e ∈ hitCache.freeBlockMap, e.1 = 1024) ∧
      ∃ a l1 l2, hitCache.freeBlockMap = l1 ++ (1024, a) :: l2 ∧ (∀ x ∈ l1, x.1 ≠ 1024) ∧
        hitCache.allocate demoPlatform demoImpl 1024 =
          .ok (a, { freeBlockMap := l1 ++ l2,
                    allocatedBlockMap := mapEmplace a 1024 hitCache.allocatedBlockMap },
            demoImpl)) ∧
    ((∀ e ∈ reuseCache.freeBlockMap, e.1 ≠ 64) ∧
      (demoPlatform reuseImpl.log (Call.cudaMalloc (toSizeT 64))).rc = 0 ∧
      reuseCache.allocate demoPlatform reuseImpl 64 =
        .ok (8448, ⟨[(1024, 7936)], [(8192, 1024), (8448, 64)]⟩,
          { reuseImpl with
            gpuPtr := [7936, 8192, 8448],
            log := reuseImpl.log ++ [Event.gpu (Call.cudaMalloc 64) ⟨0, 8448⟩] })) ∧
    ((0 : Int) ≤ 64 ∧ (64 : Int) < 2 ^ 63 ∧ (toSizeT 64 : Int) = 64) ∧
    (8448 ∉ reuseCache.allocatedBlockMap.map Prod.fst ∧
      mapFind 8448 [(8192, 1024), (8448, 64)] = some (8448, 64)) ∧
    ((demoPlatform demoImpl.log (Call.cudaMalloc 1024)).rc = 0 ∧
      ∃ t1 g1, ThrustAllocator.run demoPlatform ThrustAllocator.empty demoImpl
          [CacheOp.allocate 1024, CacheOp.allocate 1024, CacheOp.deallocate 7936,
           CacheOp.deallocate 8192, CacheOp.allocate 1024] = .ok (t1, g1) ∧
        (requests g1.log).length = (requests demoImpl.log).length + 2) := by
  have hmiss : ∀ e ∈ reuseCache.freeBlockMap, e.1 ≠ 64 := by decide
  have hrc : (demoPlatform reuseImpl.log (Call.cudaMalloc (toSizeT 64))).rc = 0 := rfl
  have hres : reuseCache.allocate demoPlatform reuseImpl 64 =
      .ok (8448, ⟨[(1024, 7936)], [(8192, 1024), (8448, 64)]⟩,
        { reuseImpl with
          gpuPtr := [7936, 8192, 8448],
          log := reuseImpl.log ++ [Event.gpu (Call.cudaMalloc 64) ⟨0, 8448⟩] }) :=
    ((C2_allocate_hit_or_miss demoPlatform reuseCache reuseImpl 64).2.1 hmiss).1 hrc
  refine ⟨⟨by decide, (C2_allocate_hit_or_miss demoPlatform hitCache demoImpl 1024).1 (by decide)⟩,
    ⟨hmiss, hrc, hres⟩,
    ⟨by decide, by decide,
      (C2_allocate_hit_or_miss demoPlatform reuseCache reuseImpl 64).2.2.1 (by decide)
        (by decide)⟩,
    ⟨by decide,
      (C2_allocate_hit_or_miss demoPlatform reuseCache reuseImpl 64).2.2.2.1 _ _ _ hres
        (by decide)⟩,
    ⟨rfl, (C2_allocate_hit_or_miss demoPlatform reuseCache demoImpl 0).2.2.2.2 rfl rfl⟩⟩

/-- Claim C1 as stated fails.  In the cache of `reuseScenario` (reached from an empty
cache by two allocations of 1024 bytes and the release of the first block, 7936), the
address 8192 is checked out with recorded size 1024; `deallocate(8192)` followed at
once by `allocate(1024)` returns 7936, the block freed earlier, and not 8192. -/
theorem C1_reuse_counterexample :
    reuseScenario = .ok (reuseCache, reuseImpl) ∧
    mapFind 8192 reuseCache.allocatedBlockMap = some (8192, 1024) ∧
    (reuseCache.deallocate reuseImpl 8192).1.allocate demoPlatform
        (reuseCache.deallocate reuseImpl 8192).2 1024 =
      .ok (7936, ⟨[(1024, 8192)], [(7936, 1024)]⟩, reuseImpl) ∧
    (7936 : Addr) ≠ 8192 := by
  refine ⟨by rfl, by decide, by rfl, by decide⟩

/-- Claim C1, amended.  For every cache state and every address `p` checked out with
recorded size `S`, `deallocate(p)` followed at once by `allocate(S)` is served from the
Free Block Map: the manager and the journal are left as they were (no call of
`Impl::alloc`, no platform call), and the address returned is `p` or the address of a
block that was already free with size `S`; it is `p` whenever the Free Block Map held
no entry of size `S` before the `deallocate`. -/
theorem C1_reuse_amended (P : Platform) (t : ThrustAllocator) (g : Impl) (p : Addr) (S : Int)
    (h : mapFind p t.allocatedBlockMap = some (p, S)) :
    ∃ a t2, (t.deallocate g p).1.allocate P (t.deallocate g p).2 S = .ok (a, t2, g) ∧
      (a = p ∨ (S, a) ∈ t.freeBlockMap) ∧
      ((∀ e ∈ t.freeBlockMap, e.1 ≠ S) → a = p) := by
  rw [cache_deallocate_found h]
  have hmem : ((S, p) : Int × Addr) ∈ mmEmplace S p t.freeBlockMap :=
    (mem_mmEmplace S p t.freeBlockMap (S, p)).mpr (Or.inl rfl)
  obtain ⟨f, hf⟩ := @mmFind_isSome_of_mem S
    (mmEmplace (p, S).2 (p, S).1 t.freeBlockMap) (S, p) hmem rfl
  refine ⟨f.2, _, cache_allocate_hit hf, ?_, ?_⟩
  · have h1 := mmFind_some hf
    rcases (mem_mmEmplace S p t.freeBlockMap f).mp h1.2 with h2 | h2
    · exact Or.inl (by rw [h2])
    · right
      have : f = (S, f.2) := Prod.ext h1.1 rfl
      rw [← this]; exact h2
  · intro habs
    have := @mmFind_mmEmplace_absent S p t.freeBlockMap habs
    have h3 : mmFind S (mmEmplace S p t.freeBlockMap) = some f := hf
    rw [this] at h3
    cases h3
    rfl

/-- Claim C1, amended, at the cache that holds the single checked-out block 8192 of
1024 bytes and no free block. -/
theorem C1_reuse_amended_witness :
    mapFind 8192 [((8192 : Addr), (1024 : Int))] = some (8192, 1024) ∧
    ∃ a t2, ((⟨[], [(8192, 1024)]⟩ : ThrustAllocator).deallocate demoImpl 8192).1.allocate
        demoPlatform ((⟨[], [(8192, 1024)]⟩ : ThrustAllocator).deallocate demoImpl 8192).2 1024 =
          .ok (a, t2, demoImpl) ∧
      (a = 8192 ∨ ((1024 : Int), a) ∈ ([] : List (Int × Addr))) ∧
      ((∀ e ∈ ([] : List (Int × Addr)), e.1 ≠ 1024) → a = 8192) :=
  ⟨by decide, C1_reuse_amended demoPlatform ⟨[], [(8192, 1024)]⟩ demoImpl 8192 1024 (by decide)⟩

/-- Claim C4.  `ThrustAllocator::deallocate(address, _)` on a cache whose Allocated Block
Map is a well-formed `std::map`.  If `address` is a key of the Allocated Block Map with
size `S`: afterwards it is no key of that map, every other key maps to what it mapped
to, the map has lost exactly the entry `(address, S)`, and the Free Block Map is the
old one with the single entry `(S, address)` put in; the manager and the journal are
as before.  If `address` is no key: one error is reported, both maps are as before and
the call returns.  In neither case does the device list or the host list change, and
nothing but that error report is added to the journal (no release of memory). -/
theorem C4_deallocate (t : ThrustAllocator) (g : Impl) (address : Addr)
    (hwf : mapWF t.allocatedBlockMap) :
    (∀ S, mapFind address t.allocatedBlockMap = some (address, S) →
      (t.deallocate g address).2 = g ∧
      mapFind address (t.deallocate g address).1.allocatedBlockMap = none ∧
      (∀ q, q ≠ address →
        mapFind q (t.deallocate g address).1.allocatedBlockMap =
          mapFind q t.allocatedBlockMap) ∧
      t.allocatedBlockMap.Perm ((address, S) :: (t.deallocate g address).1.allocatedBlockMap) ∧
      (∃ l1 l2, t.freeBlockMap = l1 ++ l2 ∧
        (t.deallocate g address).1.freeBlockMap = l1 ++ (S, address) :: l2)) ∧
    (mapFind address t.allocatedBlockMap = none →
      t.deallocate g address = (t, { g with log := g.log ++ [Event.error] })) ∧
    ((t.deallocate g address).2.gpuPtr = g.gpuPtr ∧
      (t.deallocate g address).2.hostPtr = g.hostPtr ∧
      ((t.deallocate g address).2.log = g.log ∨
        (t.deallocate g address).2.log = g.log ++ [Event.error])) := by
  refine ⟨?_, ?_, ?_⟩
  · intro S h
    rw [cache_deallocate_found h]
    refine ⟨rfl, mapFind_erase_self hwf, fun q hq => mapFind_erase_ne _ hq,
      mapEraseFound_perm h, mmEmplace_split S address t.freeBlockMap⟩
  · intro h
    exact cache_deallocate_unknown h
  · cases h : mapFind address t.allocatedBlockMap with
    | none => rw [cache_deallocate_unknown h]; exact ⟨rfl, rfl, Or.inr rfl⟩
    | some e => rw [cache_deallocate_found h]; exact ⟨rfl, rfl, Or.inl rfl⟩

/-- Claim C4 at the cache of `reuseScenario`: 8192 is checked out, 7936 is not. -/
theorem C4_deallocate_witness :
    mapWF reuseCache.allocatedBlockMap ∧
    (mapFind 8192 reuseCache.allocatedBlockMap = some (8192, 1024) ∧
      (reuseCache.deallocate reuseImpl 8192).2 = reuseImpl ∧
      mapFind 8192 (reuseCache.deallocate reuseImpl 8192).1.allocatedBlockMap = none ∧
      (∀ q, q ≠ 8192 →
        mapFind q (reuseCache.deallocate reuseImpl 8192).1.allocatedBlockMap =
          mapFind q reuseCache.allocatedBlockMap) ∧
      reuseCache.allocatedBlockMap.Perm
        ((8192, 1024) :: (reuseCache.deallocate reuseImpl 8192).1.allocatedBlockMap) ∧
      (∃ l1 l2, reuseCache.freeBlockMap = l1 ++ l2 ∧
        (reuseCache.deallocate reuseImpl 8192).1.freeBlockMap = l1 ++ (1024, 8192) :: l2)) ∧
    (mapFind 7936 reuseCache.allocatedBlockMap = none ∧
      reuseCache.deallocate reuseImpl 7936 =
        (reuseCache, { reuseImpl with log := reuseImpl.log ++ [Event.error] })) :=
  ⟨by decide,
    ⟨by decide, (C4_deallocate reuseCache reuseImpl 8192 (by decide)).1 1024 (by decide)⟩,
    ⟨by decide, (C4_deallocate reuseCache reuseImpl 7936 (by decide)).2.1 (by decide)⟩⟩

/-! ## The caching sub-allocator: sequences of calls -/

theorem perm_take_out {α β γ : Type} (f : α → γ) (h : β → γ) {l1 l2 : List α} {e : α}
    {m m1 : List β} {e1 : β} (hm : m1.Perm (e1 :: m)) (he : f e = h e1) :
    ((l1 ++ l2).map f ++ m1.map h).Perm ((l1 ++ e :: l2).map f ++ m.map h) := by
  have h1 : (m1.map h).Perm (h e1 :: m.map h) := by simpa using hm.map h
  have h2 : ((l1 ++ e :: l2).map f).Perm (f e :: (l1 ++ l2).map f) := by
    simp
  refine (List.Perm.append_left _ h1).trans ?_
  refine List.perm_middle.trans ?_
  rw [← he]
  exact (List.Perm.append_right _ h2).symm

theorem perm_put_back {α β γ : Type} (f : α → γ) (h : β → γ) {l l1 : List α} {e : α}
    {m m1 : List β} {e1 : β} (hl : l1.Perm (e :: l)) (hm : m.Perm (e1 :: m1))
    (he : f e = h e1) :
    (l1.map f ++ m1.map h).Perm (l.map f ++ m.map h) := by
  have h1 : (l1.map f).Perm (f e :: l.map f) := by simpa using hl.map f
  have h2 : (m.map h).Perm (h e1 :: m1.map h) := by simpa using hm.map h
  refine (List.Perm.append_right _ h1).trans ?_
  refine List.Perm.trans ?_ (List.Perm.append_left _ h2).symm
  rw [he]
  exact List.perm_middle.symm

theorem perm_add {α β γ : Type} (f : α → γ) (h : β → γ) (l : List α)
    {m m1 : List β} {e1 : β} (hm : m1.Perm (e1 :: m)) :
    (l.map f ++ m1.map h).Perm (h e1 :: (l.map f ++ m.map h)) := by
  have h1 : (m1.map h).Perm (h e1 :: m.map h) := by simpa using hm.map h
  exact (List.Perm.append_left _ h1).trans List.perm_middle

theorem blocks_addrs (t : ThrustAllocator) : t.blocks.map Prod.snd = t.held := by
  simp [ThrustAllocator.blocks, ThrustAllocator.held, Function.comp_def]

theorem requests_singleton_malloc (n : Nat) (r : Response) :
    requests [Event.gpu (Call.cudaMalloc n) r] = [(n, r.out)] := rfl

theorem cacheInv_empty (g : Impl) :
    CacheInv g.log g.gpuPtr g.hostPtr ThrustAllocator.empty g :=
  { journal := ⟨[], by simp, by simp, by simp [requests, ThrustAllocator.blocks,
      ThrustAllocator.empty]⟩
    nodup := by simp [ThrustAllocator.held, ThrustAllocator.empty]
    wf := by simp [mapWF, ThrustAllocator.empty]
    host := rfl
    gpu := List.prefix_refl _ }

theorem not_mem_keys_of_free {t : ThrustAllocator} (hn : t.held.Nodup) {e : Int × Addr}
    (he : e ∈ t.freeBlockMap) : e.2 ∉ t.allocatedBlockMap.map Prod.fst := by
  unfold ThrustAllocator.held at hn
  have := (List.nodup_append.mp hn).2.2
  exact fun h => this (List.mem_map_of_mem Prod.snd he) h

theorem cacheInv_allocate {P : Platform} {log0 : List Event} {gpu0 host0 : List Addr}
    {t t1 : ThrustAllocator} {g g1 : Impl} {size : Int} {a : Addr}
    (hinv : CacheInv log0 gpu0 host0 t g)
    (h : t.allocate P g size = .ok (a, t1, g1))
    (hfresh : mmFind size t.freeBlockMap = none → a ∉ t.held) :
    CacheInv log0 gpu0 host0 t1 g1 ∧ t1.allocatedBlockMap.Perm ((a, size) :: t.allocatedBlockMap) ∧
      (∀ e ∈ t.freeBlockMap, e.1 ≠ size → e.2 ≠ a ∧ e ∈ t1.freeBlockMap) := by
  obtain ⟨evs, hlog, hrel, hreq⟩ := hinv.journal
  cases hf : mmFind size t.freeBlockMap with
  | some f =>
    rw [cache_allocate_hit hf] at h
    simp only [Except.ok.injEq, Prod.mk.injEq] at h
    obtain ⟨rfl, rfl, rfl⟩ := h
    obtain ⟨hkey, hmem⟩ := mmFind_some hf
    obtain ⟨l1, l2, hsplit, -, herase⟩ := mmFind_erase_split hf
    have hnew := not_mem_keys_of_free hinv.nodup hmem
    have hperm := @mapEmplace_perm_absent f.2 size t.allocatedBlockMap hnew
    have hheld : ThrustAllocator.held
        ⟨mmEraseFound size t.freeBlockMap, mapEmplace f.2 size t.allocatedBlockMap⟩ |>.Perm
          t.held := by
      unfold ThrustAllocator.held
      simp only [herase]
      rw [hsplit]
      exact perm_take_out Prod.snd Prod.fst hperm rfl
    have hfree_nodup : (t.freeBlockMap.map Prod.snd).Nodup :=
      (List.nodup_append.mp hinv.nodup).1
    refine ⟨⟨⟨evs, hlog, hrel, hreq.trans ?_⟩, hheld.nodup_iff.mpr hinv.nodup,
      mapEmplace_wf hinv.wf, hinv.host, hinv.gpu⟩, hperm, ?_⟩
    · unfold ThrustAllocator.blocks
      simp only [herase]
      rw [hsplit]
      exact (perm_take_out _ _ hperm (by simp [hkey])).symm
    · intro e he hne
      rw [hsplit] at he hfree_nodup
      simp only [herase]
      have hef : e ≠ f := fun h2 => hne (h2 ▸ hkey)
      have he2 : e ∈ l1 ++ l2 := by
        rcases List.mem_append.mp he with h3 | h3
        · exact List.mem_append_left _ h3
        · rcases List.mem_cons.mp h3 with h3 | h3
          · exact absurd h3 hef
          · exact List.mem_append_right _ h3
      refine ⟨?_, he2⟩
      have hnd : ((f :: (l1 ++ l2)).map Prod.snd).Nodup :=
        (List.perm_middle.map Prod.snd).nodup_iff.mp hfree_nodup
      rw [List.map_cons, List.nodup_cons] at hnd
      exact fun h2 => hnd.1 (h2 ▸ List.mem_map_of_mem Prod.snd he2)
  | none =>
    by_cases hrc : (P g.log (Call.cudaMalloc (toSizeT size))).rc = 0
    · rw [cache_allocate_miss_ok hf hrc] at h
      simp only [Except.ok.injEq, Prod.mk.injEq] at h
      obtain ⟨rfl, rfl, rfl⟩ := h
      have hnot := hfresh hf
      have hnew : (P g.log (Call.cudaMalloc (toSizeT size))).out ∉
          t.allocatedBlockMap.map Prod.fst := by
        unfold ThrustAllocator.held at hnot
        exact fun h2 => hnot (List.mem_append_right _ h2)
      have hperm := @mapEmplace_perm_absent _ size t.allocatedBlockMap hnew
      have hheld : ThrustAllocator.held ⟨t.freeBlockMap,
          mapEmplace (P g.log (Call.cudaMalloc (toSizeT size))).out size t.allocatedBlockMap⟩
            |>.Perm ((P g.log (Call.cudaMalloc (toSizeT size))).out :: t.held) := by
        unfold ThrustAllocator.held
        exact perm_add Prod.snd Prod.fst _ hperm
      refine ⟨⟨⟨evs ++ [Event.gpu (Call.cudaMalloc (toSizeT size))
          (P g.log (Call.cudaMalloc (toSizeT size)))], ?_, ?_, ?_⟩,
        hheld.nodup_iff.mpr (List.nodup_cons.mpr ⟨hnot, hinv.nodup⟩),
        mapEmplace_wf hinv.wf, hinv.host, ?_⟩, hperm, ?_⟩
      · simp [hlog]
      · intro ev hev
        rcases List.mem_append.mp hev with h2 | h2
        · exact hrel ev h2
        · rw [List.mem_singleton.mp h2]; rfl
      · rw [requests_append, requests_singleton_malloc]
        unfold ThrustAllocator.blocks
        refine List.Perm.trans ?_ (perm_add _ _ _ hperm).symm
        exact (List.perm_append_singleton _ _).trans (List.Perm.cons _ hreq)
      · show gpu0 <+: (if _ then _ else _)
        split
        · exact hinv.gpu.trans (List.prefix_append _ _)
        · exact hinv.gpu
      · intro e he _
        refine ⟨?_, he⟩
        intro h2
        apply hnot
        unfold ThrustAllocator.held
        exact List.mem_append_left _ (h2 ▸ List.mem_map_of_mem Prod.snd he)
    · rw [cache_allocate_miss_exit hf hrc] at h
      cases h

theorem cacheInv_deallocate {log0 : List Event} {gpu0 host0 : List Addr}
    {t : ThrustAllocator} {g : Impl} (p : Addr) (hinv : CacheInv log0 gpu0 host0 t g) :
    CacheInv log0 gpu0 host0 (t.deallocate g p).1 (t.deallocate g p).2 := by
  obtain ⟨evs, hlog, hrel, hreq⟩ := hinv.journal
  cases hf : mapFind p t.allocatedBlockMap with
  | none =>
    rw [cache_deallocate_unknown hf]
    refine ⟨⟨evs ++ [Event.error], by simp [hlog], ?_, ?_⟩, hinv.nodup, hinv.wf, hinv.host,
      hinv.gpu⟩
    · intro ev hev
      rcases List.mem_append.mp hev with h2 | h2
      · exact hrel ev h2
      · rw [List.mem_singleton.mp h2]; rfl
    · rw [requests_append]
      simpa [requests] using hreq
  | some e =>
    rw [cache_deallocate_found hf]
    have h1 := mmEmplace_perm e.2 e.1 t.freeBlockMap
    have h2 := mapEraseFound_perm hf
    have hheld : ThrustAllocator.held
        ⟨mmEmplace e.2 e.1 t.freeBlockMap, mapEraseFound p t.allocatedBlockMap⟩ |>.Perm
          t.held := by
      unfold ThrustAllocator.held
      exact perm_put_back Prod.snd Prod.fst h1 h2 rfl
    refine ⟨⟨evs, hlog, hrel, hreq.trans ?_⟩, hheld.nodup_iff.mpr hinv.nodup,
      mapEraseFound_wf hinv.wf, hinv.host, hinv.gpu⟩
    unfold ThrustAllocator.blocks
    exact (perm_put_back _ _ h1 h2 rfl).symm

/-- A fresh sequence of calls on a cache runs to its end and keeps the invariant; what
is left of the sequence is fresh from the state reached. -/
theorem cache_run_inv (P : Platform) (log0 : List Event) (gpu0 host0 : List Addr)
    (ops rest : List CacheOp) :
    ∀ (t : ThrustAllocator) (g : Impl), CacheInv log0 gpu0 host0 t g →
      ThrustAllocator.fresh P t g (ops ++ rest) →
      ∃ t1 g1, ThrustAllocator.run P t g ops = .ok (t1, g1) ∧
        CacheInv log0 gpu0 host0 t1 g1 ∧ ThrustAllocator.fresh P t1 g1 rest := by
  induction ops with
  | nil => intro t g hinv hf; exact ⟨t, g, rfl, hinv, hf⟩
  | cons op ops ih =>
    intro t g hinv hf
    cases op with
    | deallocate p =>
      have hf2 : ThrustAllocator.fresh P (t.deallocate g p).1 (t.deallocate g p).2
          (ops ++ rest) := hf
      obtain ⟨t1, g1, h1, h2, h3⟩ := ih _ _ (cacheInv_deallocate p hinv) hf2
      exact ⟨t1, g1, by simpa [ThrustAllocator.run, ThrustAllocator.step] using h1, h2, h3⟩
    | allocate size =>
      have hf2 : (match t.allocate P g size with
          | .ok (a, t1, g1) =>
            (mmFind size t.freeBlockMap = none → a ∉ t.held) ∧
              ThrustAllocator.fresh P t1 g1 (ops ++ rest)
          | .error _ => False) := hf
      cases hres : t.allocate P g size with
      | error f => rw [hres] at hf2; exact hf2.elim
      | ok r =>
        obtain ⟨a, t2, g2⟩ := r
        rw [hres] at hf2
        obtain ⟨t1, g1, h1, h2, h3⟩ := ih _ _ (cacheInv_allocate hinv hres hf2.1).1 hf2.2
        exact ⟨t1, g1, by simpa [ThrustAllocator.run, ThrustAllocator.step, hres] using h1,
          h2, h3⟩

theorem fresh_take {P : Platform} {t : ThrustAllocator} {g : Impl} {ops : List CacheOp}
    (k : Nat) (h : ThrustAllocator.fresh P t g ops) :
    ThrustAllocator.fresh P t g (ops.take k ++ ops.drop k) := by
  rw [List.take_append_drop]; exact h

/-- Claim C10.  Take any sequence of `allocate` / `deallocate` calls on one cache that
starts with both maps empty and along which every request that reaches the platform
succeeds and returns an address the cache does not hold.  After every call (after the
first `k` calls, for every `k`) the calls have run to their end and: (i) no address of
the Free Block Map is a key of the Allocated Block Map, (ii) no address occurs twice
in the Free Block Map, (iii) the addresses of the two maps are exactly the addresses
returned by the device allocations made since the start; nothing was released to the
platform, the host list is as at the start and the device list only grew. -/
theorem C10_cache_address_set (P : Platform) (g0 : Impl) (ops : List CacheOp)
    (hfresh : ThrustAllocator.fresh P ThrustAllocator.empty g0 ops) (k : Nat) :
    ∃ t g evs, ThrustAllocator.run P ThrustAllocator.empty g0 (ops.take k) = .ok (t, g) ∧
      g.log = g0.log ++ evs ∧
      (∀ a, a ∈ t.freeBlockMap.map Prod.snd → a ∉ t.allocatedBlockMap.map Prod.fst) ∧
      (t.freeBlockMap.map Prod.snd).Nodup ∧
      (∀ a, (a ∈ t.freeBlockMap.map Prod.snd ∨ a ∈ t.allocatedBlockMap.map Prod.fst) ↔
        a ∈ (requests evs).map Prod.snd) ∧
      (∀ ev ∈ evs, ev.isRelease = false) ∧
      g0.gpuPtr <+: g.gpuPtr ∧ g.hostPtr = g0.hostPtr := by
  obtain ⟨t, g, hrun, hinv, -⟩ :=
    cache_run_inv P g0.log g0.gpuPtr g0.hostPtr (ops.take k) (ops.drop k) _ _
      (cacheInv_empty g0) (fresh_take k hfresh)
  obtain ⟨evs, hlog, hrel, hreq⟩ := hinv.journal
  have hnd := hinv.nodup
  unfold ThrustAllocator.held at hnd
  obtain ⟨h1, -, h3⟩ := List.nodup_append.mp hnd
  refine ⟨t, g, evs, hrun, hlog, fun a ha hb => h3 ha hb, h1, ?_, hrel, hinv.gpu, hinv.host⟩
  intro a
  rw [(hreq.map Prod.snd).mem_iff, blocks_addrs]
  unfold ThrustAllocator.held
  exact List.mem_append.symm

/-- Claim C10 on the demonstration platform: after five of the six calls of a
sequence with a reuse, a fresh block and the release of an unknown address. -/
theorem C10_cache_address_set_witness :
    ThrustAllocator.fresh demoPlatform ThrustAllocator.empty demoImpl
      [CacheOp.allocate 1024, CacheOp.allocate 1024, CacheOp.deallocate 7936,
       CacheOp.allocate 1024, CacheOp.allocate 64, CacheOp.deallocate 12345] ∧
    ∃ t g evs, ThrustAllocator.run demoPlatform ThrustAllocator.empty demoImpl
        ([CacheOp.allocate 1024, CacheOp.allocate 1024, CacheOp.deallocate 7936,
          CacheOp.allocate 1024, CacheOp.allocate 64, CacheOp.deallocate 12345].take 5) =
          .ok (t, g) ∧
      g.log = demoImpl.log ++ evs ∧
      (∀ a, a ∈ t.freeBlockMap.map Prod.snd → a ∉ t.allocatedBlockMap.map Prod.fst) ∧
      (t.freeBlockMap.map Prod.snd).Nodup ∧
      (∀ a, (a ∈ t.freeBlockMap.map Prod.snd ∨ a ∈ t.allocatedBlockMap.map Prod.fst) ↔
        a ∈ (requests evs).map Prod.snd) ∧
      (∀ ev ∈ evs, ev.isRelease = false) ∧
      demoImpl.gpuPtr <+: g.gpuPtr ∧ g.hostPtr = demoImpl.hostPtr :=
  ⟨by decide, C10_cache_address_set demoPlatform demoImpl _ (by decide) 5⟩

theorem fst_unique_of_nodup_snd {l : List (Nat × Addr)} (h : (l.map Prod.snd).Nodup)
    {n m : Nat} {a : Addr} (hn : (n, a) ∈ l) (hm : (m, a) ∈ l) : n = m := by
  have := List.inj_on_of_nodup_map h hn hm rfl
  exact (Prod.mk.inj this).1

/-- Claim C3.  Take any sequence of calls on one cache that starts with both maps empty
and is followed by a call `allocate(S1)`, every request that reaches the platform
succeeding with an address the cache does not hold.  The calls run to their end, the
call `allocate(S1)` returns an address `a`, and among the device allocations made since
the start there is one of `S1` bytes (converted to `size_t`) that returned `a` and none
of another size that returned `a`; in particular none of `S2` bytes for a
`std::ptrdiff_t` value `S2 ≠ S1`.  Every free block whose size is not `S1` has an
address other than `a` and is still in the Free Block Map after the call. -/
theorem C3_cache_isolation (P : Platform) (g0 : Impl) (ops : List CacheOp) (S1 : Int)
    (hfresh : ThrustAllocator.fresh P ThrustAllocator.empty g0
      (ops ++ [CacheOp.allocate S1])) :
    ∃ t g a t1 g1 evs, ThrustAllocator.run P ThrustAllocator.empty g0 ops = .ok (t, g) ∧
      t.allocate P g S1 = .ok (a, t1, g1) ∧ g1.log = g0.log ++ evs ∧
      (toSizeT S1, a) ∈ requests evs ∧
      (∀ n, (n, a) ∈ requests evs → n = toSizeT S1) ∧
      (∀ S2, isPtrdiff S1 → isPtrdiff S2 → S2 ≠ S1 → (toSizeT S2, a) ∉ requests evs) ∧
      (∀ e ∈ t.freeBlockMap, e.1 ≠ S1 → e.2 ≠ a ∧ e ∈ t1.freeBlockMap) := by
  obtain ⟨t, g, hrun, hinv, hf⟩ :=
    cache_run_inv P g0.log g0.gpuPtr g0.hostPtr ops [CacheOp.allocate S1] _ _
      (cacheInv_empty g0) hfresh
  have hf2 : (match t.allocate P g S1 with
      | .ok (a, t1, g1) =>
        (mmFind S1 t.freeBlockMap = none → a ∉ t.held) ∧ ThrustAllocator.fresh P t1 g1 []
      | .error _ => False) := hf
  cases hres : t.allocate P g S1 with
  | error f => rw [hres] at hf2; exact hf2.elim
  | ok r =>
    obtain ⟨a, t1, g1⟩ := r
    rw [hres] at hf2
    obtain ⟨hinv1, hperm, hfree⟩ := cacheInv_allocate hinv hres hf2.1
    obtain ⟨evs, hlog, -, hreq⟩ := hinv1.journal
    have hmem : (toSizeT S1, a) ∈ requests evs := by
      rw [hreq.mem_iff]
      unfold ThrustAllocator.blocks
      refine List.mem_append_right _ (List.mem_map.mpr ⟨(a, S1), ?_, rfl⟩)
      exact hperm.mem_iff.mpr (List.mem_cons_self _ _)
    have hnd : ((requests evs).map Prod.snd).Nodup := by
      rw [(hreq.map Prod.snd).nodup_iff, blocks_addrs]
      exact hinv1.nodup
    have huniq : ∀ n, (n, a) ∈ requests evs → n = toSizeT S1 :=
      fun n hn => fst_unique_of_nodup_snd hnd hn hmem
    refine ⟨t, g, a, t1, g1, evs, hrun, hres, hlog, hmem, huniq, ?_, hfree⟩
    intro S2 h1 h2 hne hin
    exact hne (toSizeT_injOn h2 h1 (huniq _ hin))

/-- Claim C3 on the demonstration platform: blocks of 2048 and 1024 bytes are free when
1024 bytes are asked for. -/
theorem C3_cache_isolation_witness :
    ThrustAllocator.fresh demoPlatform ThrustAllocator.empty demoImpl
      ([CacheOp.allocate 2048, CacheOp.allocate 1024, CacheOp.deallocate 7936,
        CacheOp.deallocate 8192] ++ [CacheOp.allocate 1024]) ∧
    ∃ t g a t1 g1 evs, ThrustAllocator.run demoPlatform ThrustAllocator.empty demoImpl
        [CacheOp.allocate 2048, CacheOp.allocate 1024, CacheOp.deallocate 7936,
          CacheOp.deallocate 8192] = .ok (t, g) ∧
      t.allocate demoPlatform g 1024 = .ok (a, t1, g1) ∧ g1.log = demoImpl.log ++ evs ∧
      (toSizeT 1024, a) ∈ requests evs ∧
      (∀ n, (n, a) ∈ requests evs → n = toSizeT 1024) ∧
      (∀ S2, isPtrdiff 1024 → isPtrdiff S2 → S2 ≠ 1024 → (toSizeT S2, a) ∉ requests evs) ∧
      (∀ e ∈ t.freeBlockMap, e.1 ≠ 1024 → e.2 ≠ a ∧ e ∈ t1.freeBlockMap) :=
  ⟨by decide, C3_cache_isolation demoPlatform demoImpl _ 1024 (by decide)⟩

/-! ## The memory block registry -/

theorem free_gpu {P : Platform} {g : Impl} {p : Addr} (h : p ∈ g.gpuPtr) :
    g.free P p =
      { g with gpuPtr := g.gpuPtr.erase p,
               log := g.log ++ [Event.gpu (Call.cudaFree p) (P g.log (Call.cudaFree p))] } := by
  simp [Impl.free, h]

theorem free_host {P : Platform} {g : Impl} {p : Addr} (h1 : p ∉ g.gpuPtr)
    (h : p ∈ g.hostPtr) :
    g.free P p =
      { g with hostPtr := g.hostPtr.erase p,
               log := g.log ++
                 [Event.gpu (Call.cudaFreeHost p) (P g.log (Call.cudaFreeHost p))] } := by
  simp [Impl.free, h, h1]

theorem free_unknown {P : Platform} {g : Impl} {p : Addr} (h1 : p ∉ g.gpuPtr)
    (h : p ∉ g.hostPtr) :
    g.free P p = { g with log := g.log ++ [Event.warn p] } := by
  simp [Impl.free, h, h1]

theorem tracked_nodup_free {P : Platform} {g : Impl} (p : Addr) (h : g.tracked.Nodup) :
    (g.free P p).tracked.Nodup := by
  unfold Impl.tracked at *
  by_cases h1 : p ∈ g.gpuPtr
  · rw [free_gpu h1]
    exact h.sublist ((List.erase_sublist p g.gpuPtr).append_right _)
  · by_cases h2 : p ∈ g.hostPtr
    · rw [free_host h1 h2]
      exact h.sublist ((List.erase_sublist p g.hostPtr).append_left _)
    · rw [free_unknown h1 h2]; exact h

theorem tracked_nodup_allocate {P : Platform} {g g1 : Impl} {size : Nat} {type : MemType}
    {a : Addr} (h : g.tracked.Nodup) (hres : g.allocate P size type = .ok (a, g1))
    (hnew : a ∉ g.tracked) : g1.tracked.Nodup := by
  unfold Impl.tracked at *
  have hperm1 : (g.gpuPtr ++ [a] ++ g.hostPtr).Perm (a :: (g.gpuPtr ++ g.hostPtr)) := by
    rw [List.append_assoc]
    exact List.perm_middle
  have hperm2 : (g.gpuPtr ++ (g.hostPtr ++ [a])).Perm (a :: (g.gpuPtr ++ g.hostPtr)) := by
    rw [← List.append_assoc]
    exact List.perm_append_singleton _ _
  have hcons : (a :: (g.gpuPtr ++ g.hostPtr)).Nodup := List.nodup_cons.mpr ⟨hnew, h⟩
  by_cases ht : type = MemType.GPU
  · subst ht
    by_cases hrc : (P g.log (Call.cudaMalloc size)).rc = 0
    · rw [allocate_gpu_ok hrc] at hres
      simp only [Except.ok.injEq, Prod.mk.injEq] at hres
      obtain ⟨rfl, rfl⟩ := hres
      show ((if _ then _ else _) ++ g.hostPtr).Nodup
      split
      · exact hperm1.nodup_iff.mpr hcons
      · exact h
    · rw [allocate_gpu_exit hrc] at hres; cases hres
  · by_cases hrc : (P g.log (Call.cudaMallocHost size)).rc = 0
    · rw [allocate_host_ok ht hrc] at hres
      simp only [Except.ok.injEq, Prod.mk.injEq] at hres
      obtain ⟨rfl, rfl⟩ := hres
      show (g.gpuPtr ++ (if _ then _ else _)).Nodup
      split
      · exact hperm2.nodup_iff.mpr hcons
      · exact h
    · rw [allocate_host_exit ht hrc] at hres; cases hres

/-- A fresh sequence of registry calls runs to its end and no address is tracked
twice afterwards. -/
theorem reg_run_nodup (P : Platform) (ops : List RegOp) :
    ∀ g : Impl, g.tracked.Nodup → Impl.regFresh P g ops →
      ∃ g1, Impl.runReg P g ops = .ok g1 ∧ g1.tracked.Nodup := by
  induction ops with
  | nil => intro g h _; exact ⟨g, rfl, h⟩
  | cons op ops ih =>
    intro g h hf
    cases op with
    | free p =>
      have hf2 : Impl.regFresh P (g.free P p) ops := hf
      obtain ⟨g1, h1, h2⟩ := ih _ (tracked_nodup_free p h) hf2
      exact ⟨g1, by simpa [Impl.runReg] using h1, h2⟩
    | allocate size type =>
      have hf2 : (match g.allocate P size type with
          | .ok (a, g1) => a ∉ g.tracked ∧ Impl.regFresh P g1 ops
          | .error _ => False) := hf
      cases hres : g.allocate P size type with
      | error f => rw [hres] at hf2; exact hf2.elim
      | ok r =>
        obtain ⟨a, g2⟩ := r
        rw [hres] at hf2
        obtain ⟨g1, h1, h2⟩ := ih _ (tracked_nodup_allocate h hres hf2.1) hf2.2
        exact ⟨g1, by simpa [Impl.runReg, hres] using h1, h2⟩

/-- Claim C5.  Take any sequence of `Impl::allocate` / `Impl::free` calls from a state
that tracks no address twice, every platform allocation succeeding with an address
that is not tracked.  The calls run to their end, and in the state reached, for every
address: if it is in the device list, `Impl::free` takes exactly its entry out of
that list (the entries before and after stay, in order), leaves the host list alone,
adds exactly one `cudaFree` of that address to the journal, and a second `Impl::free`
of the address only logs a warning; if it is not in the device list but in the host
list, the same holds with the host list and `cudaFreeHost`; if it is in neither list,
`Impl::free` logs a warning, changes neither list, releases nothing and returns. -/
theorem C5_registry_accounting (P : Platform) (g0 : Impl) (ops : List RegOp)
    (h0 : g0.tracked.Nodup) (hfresh : Impl.regFresh P g0 ops) :
    ∃ g, Impl.runReg P g0 ops = .ok g ∧ ∀ address : Addr,
      (address ∈ g.gpuPtr →
        ∃ l1 l2, g.gpuPtr = l1 ++ address :: l2 ∧
          g.free P address =
            { g with gpuPtr := l1 ++ l2,
                     log := g.log ++
                       [Event.gpu (Call.cudaFree address) (P g.log (Call.cudaFree address))] } ∧
          (g.free P address).free P address =
            { g.free P address with log := (g.free P address).log ++ [Event.warn address] }) ∧
      (address ∉ g.gpuPtr → address ∈ g.hostPtr →
        ∃ l1 l2, g.hostPtr = l1 ++ address :: l2 ∧
          g.free P address =
            { g with hostPtr := l1 ++ l2,
                     log := g.log ++ [Event.gpu (Call.cudaFreeHost address)
                       (P g.log (Call.cudaFreeHost address))] } ∧
          (g.free P address).free P address =
            { g.free P address with log := (g.free P address).log ++ [Event.warn address] }) ∧
      (address ∉ g.gpuPtr → address ∉ g.hostPtr →
        g.free P address = { g with log := g.log ++ [Event.warn address] }) := by
  obtain ⟨g, hrun, hnd⟩ := reg_run_nodup P ops g0 h0 hfresh
  refine ⟨g, hrun, fun address => ⟨?_, ?_, fun h1 h2 => free_unknown h1 h2⟩⟩
  · intro hin
    obtain ⟨l1, l2, -, hsplit, herase⟩ := List.exists_erase_eq hin
    have hnot : address ∉ (g.free P address).gpuPtr ∧ address ∉ (g.free P address).hostPtr := by
      unfold Impl.tracked at hnd
      obtain ⟨hg, -, hdisj⟩ := List.nodup_append.mp hnd
      rw [free_gpu hin]
      exact ⟨fun h => (List.Nodup.mem_erase_iff hg).mp h |>.1 rfl, fun h => hdisj hin h⟩
    refine ⟨l1, l2, hsplit, ?_, free_unknown hnot.1 hnot.2⟩
    rw [free_gpu hin, herase]
  · intro hout hin
    obtain ⟨l1, l2, -, hsplit, herase⟩ := List.exists_erase_eq hin
    have hnot : address ∉ (g.free P address).gpuPtr ∧ address ∉ (g.free P address).hostPtr := by
      unfold Impl.tracked at hnd
      obtain ⟨-, hh, -⟩ := List.nodup_append.mp hnd
      rw [free_host hout hin]
      exact ⟨hout, fun h => (List.Nodup.mem_erase_iff hh).mp h |>.1 rfl⟩
    refine ⟨l1, l2, hsplit, ?_, free_unknown hnot.1 hnot.2⟩
    rw [free_host hout hin, herase]

/-- Claim C5 on the demonstration platform: two device blocks and a pinned host block
are allocated and the first device block is freed. -/
theorem C5_registry_accounting_witness :
    demoImpl.tracked.Nodup ∧
    Impl.regFresh demoPlatform demoImpl
      [RegOp.allocate 256 MemType.GPU, RegOp.allocate 128 MemType.CPU,
       RegOp.allocate 64 MemType.GPU, RegOp.free 7936] ∧
    ∃ g, Impl.runReg demoPlatform demoImpl
        [RegOp.allocate 256 MemType.GPU, RegOp.allocate 128 MemType.CPU,
         RegOp.allocate 64 MemType.GPU, RegOp.free 7936] = .ok g ∧ ∀ address : Addr,
      (address ∈ g.gpuPtr →
        ∃ l1 l2, g.gpuPtr = l1 ++ address :: l2 ∧
          g.free demoPlatform address =
            { g with gpuPtr := l1 ++ l2,
                     log := g.log ++ [Event.gpu (Call.cudaFree address)
                       (demoPlatform g.log (Call.cudaFree address))] } ∧
          (g.free demoPlatform address).free demoPlatform address =
            { g.free demoPlatform address with
              log := (g.free demoPlatform address).log ++ [Event.warn address] }) ∧
      (address ∉ g.gpuPtr → address ∈ g.hostPtr →
        ∃ l1 l2, g.hostPtr = l1 ++ address :: l2 ∧
          g.free demoPlatform address =
            { g with hostPtr := l1 ++ l2,
                     log := g.log ++ [Event.gpu (Call.cudaFreeHost address)
                       (demoPlatform g.log (Call.cudaFreeHost address))] } ∧
          (g.free demoPlatform address).free demoPlatform address =
            { g.free demoPlatform address with
              log := (g.free demoPlatform address).log ++ [Event.warn address] }) ∧
      (address ∉ g.gpuPtr → address ∉ g.hostPtr →
        g.free demoPlatform address = { g with log := g.log ++ [Event.warn address] }) :=
  ⟨by decide, by decide, C5_registry_accounting demoPlatform demoImpl _ (by decide) (by decide)⟩

/-! ## The stream and event pool -/

theorem issue_ok {P : Platform} {g : Impl} {c : Call} (h : (P g.log c).rc = 0) :
    g.issue P c = .ok { g with log := g.log ++ [Event.gpu c (P g.log c)] } := by
  simp [Impl.issue, checkGpu, h]

theorem issue_exit {P : Platform} {g : Impl} {c : Call} (h : (P g.log c).rc ≠ 0) :
    g.issue P c = .error Fault.exit := by
  simp [Impl.issue, checkGpu, h]

theorem issue_inv {P : Platform} {g g1 : Impl} {c : Call} (h : g.issue P c = .ok g1) :
    g1 = { g with log := g.log ++ [Event.gpu c (P g.log c)] } := by
  by_cases hrc : (P g.log c).rc = 0
  · rw [issue_ok hrc] at h
    exact (Except.ok.inj h).symm
  · rw [issue_exit hrc] at h; cases h

theorem sameHandles_refl (g : Impl) : g.sameHandles g := ⟨rfl, rfl, rfl, rfl⟩

theorem sameHandles_trans {g g1 g2 : Impl} (h1 : g.sameHandles g1) (h2 : g1.sameHandles g2) :
    g.sameHandles g2 :=
  ⟨h2.1.trans h1.1, h2.2.1.trans h1.2.1, h2.2.2.1.trans h1.2.2.1, h2.2.2.2.trans h1.2.2.2⟩

theorem issue_sameHandles {P : Platform} {g g1 : Impl} {c : Call} (h : g.issue P c = .ok g1) :
    g.sameHandles g1 := by
  rw [issue_inv h]; exact ⟨rfl, rfl, rfl, rfl⟩

theorem allocate_sameHandles {P : Platform} {g g1 : Impl} {n : Nat} {type : MemType} {a : Addr}
    (h : g.allocate P n type = .ok (a, g1)) : g.sameHandles g1 := by
  unfold Impl.allocate at h
  split at h
  · split at h
    · cases h
    · cases h; exact ⟨rfl, rfl, rfl, rfl⟩
  · split at h
    · cases h
    · cases h; exact ⟨rfl, rfl, rfl, rfl⟩

theorem free_sameHandles (P : Platform) (g : Impl) (p : Addr) : g.sameHandles (g.free P p) := by
  unfold Impl.free
  split
  · exact ⟨rfl, rfl, rfl, rfl⟩
  · split <;> exact ⟨rfl, rfl, rfl, rfl⟩

theorem streamWait_sameHandles {P : Platform} {g g1 : Impl} {si ei : Nat}
    (h : g.streamWait P si ei = .ok g1) : g.sameHandles g1 := by
  unfold Impl.streamWait at h
  split at h
  · cases h
  · split at h
    · cases h
    · exact issue_sameHandles h

theorem timerStart_sameHandles {P : Platform} {g g1 : Impl} {ei si : Nat}
    (h : g.timerStart P ei si = .ok g1) : g.sameHandles g1 := by
  unfold Impl.timerStart at h
  split at h
  · cases h
  · split at h
    · cases h
    · exact issue_sameHandles h

theorem timerStop_sameHandles {P : Platform} {g g1 : Impl} {ei si : Nat}
    (h : g.timerStop P ei si = .ok g1) : g.sameHandles g1 := by
  unfold Impl.timerStop at h
  split at h
  · cases h
  · split at h
    · cases h
    · exact issue_sameHandles h

theorem timerElapsed_sameHandles {P : Platform} {g g1 : Impl} {ei : Nat} {v : Nat}
    (h : g.timerElapsed P ei = .ok (v, g1)) : g.sameHandles g1 := by
  unfold Impl.timerElapsed at h
  split at h
  · cases h
  · rename_i g2 hw
    have h12 : g.sameHandles g2 := by
      split at hw
      · exact streamWait_sameHandles hw
      · cases hw; exact sameHandles_refl g
    split at h
    · cases h
    · split at h
      · cases h
      · split at h
        · cases h
        · cases h
          exact sameHandles_trans h12 ⟨rfl, rfl, rfl, rfl⟩

theorem cache_allocate_sameHandles {P : Platform} {t t1 : ThrustAllocator} {g g1 : Impl}
    {size : Int} {a : Addr} (h : t.allocate P g size = .ok (a, t1, g1)) : g.sameHandles g1 := by
  unfold ThrustAllocator.allocate at h
  split at h
  · cases h; exact sameHandles_refl g
  · split at h
    · cases h
    · rename_i heq
      cases h
      exact allocate_sameHandles heq

theorem cache_deallocate_sameHandles (t : ThrustAllocator) (g : Impl) (p : Addr) :
    g.sameHandles (t.deallocate g p).2 := by
  unfold ThrustAllocator.deallocate
  split <;> exact ⟨rfl, rfl, rfl, rfl⟩

theorem step_sameHandles {P : Platform} {g g1 : Impl} {op : Op} (h : g.step P op = .ok g1) :
    g.sameHandles g1 := by
  cases op with
  | alloc sz n type =>
    simp only [Impl.step] at h
    split at h
    · cases h
    · rename_i heq
      cases h
      exact allocate_sameHandles heq
  | free p => cases h; exact free_sameHandles P g p
  | copy sz dst src n type index =>
    simp only [Impl.step, Impl.copy, Impl.implcopy] at h
    split at h
    · cases h
    · exact issue_sameHandles h
  | set sz dst value n index =>
    simp only [Impl.step, Impl.set, Impl.implset] at h
    split at h
    · cases h
    · exact issue_sameHandles h
  | streamWait si ei => exact streamWait_sameHandles h
  | timerStart ei si => exact timerStart_sameHandles h
  | timerStop ei si => exact timerStop_sameHandles h
  | timerElapsed ei =>
    simp only [Impl.step] at h
    split at h
    · cases h
    · rename_i heq
      cases h
      exact timerElapsed_sameHandles heq
  | synchronize si =>
    simp only [Impl.step, Impl.synchronize] at h
    split at h
    · cases h
    · exact issue_sameHandles h
  | deviceSynchronize => exact issue_sameHandles h
  | cacheAllocate i size =>
    simp only [Impl.step] at h
    split at h
    · cases h
    · split at h
      · cases h
      · rename_i heq
        cases h
        have := cache_allocate_sameHandles heq
        exact ⟨this.1, this.2.1, this.2.2.1, this.2.2.2⟩
  | cacheDeallocate i p =>
    simp only [Impl.step] at h
    split at h
    · cases h
    · cases h
      rename_i t _
      have := cache_deallocate_sameHandles t g p
      exact ⟨this.1, this.2.1, this.2.2.1, this.2.2.2⟩

theorem run_sameHandles {P : Platform} (ops : List Op) :
    ∀ {g g1 : Impl}, g.run P ops = .ok g1 → g.sameHandles g1 := by
  induction ops with
  | nil => intro g g1 h; cases h; exact sameHandles_refl g
  | cons op ops ih =>
    intro g g1 h
    simp only [Impl.run] at h
    split at h
    · cases h
    · rename_i g2 heq
      exact sameHandles_trans (step_sameHandles heq) (ih h)

theorem createStreams_inv {P : Platform} (is : List Nat) :
    ∀ {g g1 : Impl}, Impl.createStreams P is g = .ok g1 →
      g1.streamPtr.length = g.streamPtr.length ∧ g1.eventStart = g.eventStart ∧
        g1.eventStop = g.eventStop ∧ g1.device = g.device ∧ g1.gpuPtr = g.gpuPtr ∧
        g1.hostPtr = g.hostPtr := by
  induction is with
  | nil => intro g g1 h; cases h; exact ⟨rfl, rfl, rfl, rfl, rfl, rfl⟩
  | cons ii rest ih =>
    intro g g1 h
    simp only [Impl.createStreams] at h
    split at h
    · split at h
      · cases h
      · have := ih h
        simpa using this
    · cases h

theorem createEvents_inv {P : Platform} (is : List Nat) :
    ∀ {g g1 : Impl}, Impl.createEvents P is g = .ok g1 →
      g1.streamPtr = g.streamPtr ∧ g1.eventStart.length = g.eventStart.length ∧
        g1.eventStop.length = g.eventStop.length ∧ g1.device = g.device ∧
        g1.gpuPtr = g.gpuPtr ∧ g1.hostPtr = g.hostPtr := by
  induction is with
  | nil => intro g g1 h; cases h; exact ⟨rfl, rfl, rfl, rfl, rfl, rfl⟩
  | cons ii rest ih =>
    intro g g1 h
    simp only [Impl.createEvents] at h
    split at h
    · split at h
      · cases h
      · split at h
        · split at h
          · cases h
          · have := ih h
            simpa using this
        · cases h
    · cases h

/-- What the constructor establishes. -/
theorem new_inv {P : Platform} {device : Option Nat} {log : List Event} {g : Impl}
    (h : Impl.new P device log = .ok g) :
    g.streamPtr.length = NumStreams ∧ g.eventStart.length = NumEvents ∧
      g.eventStop.length = NumEvents ∧ g.device = device ∧ g.gpuPtr = [] ∧ g.hostPtr = [] := by
  unfold Impl.new at h
  split at h
  · cases h
  · rename_i g1 heq
    have h1 := createStreams_inv _ heq
    have h2 := createEvents_inv _ h
    simp only [List.length_replicate] at h1
    refine ⟨by rw [h2.1]; exact h1.1, by rw [h2.2.1, h1.2.1, List.length_replicate],
      by rw [h2.2.2.1, h1.2.2.1, List.length_replicate], by rw [h2.2.2.2.1]; exact h1.2.2.2.1,
      by rw [h2.2.2.2.2.1]; exact h1.2.2.2.2.1, by rw [h2.2.2.2.2.2]; exact h1.2.2.2.2.2⟩

/-- The handle vectors keep their sizes through the life of a manager. -/
theorem reachable_lengths {P : Platform} {device : Option Nat} {log : List Event}
    {g0 g : Impl} {ops : List Op} (hnew : Impl.new P device log = .ok g0)
    (hrun : g0.run P ops = .ok g) :
    g.streamPtr.length = NumStreams ∧ g.eventStart.length = NumEvents ∧
      g.eventStop.length = NumEvents ∧ g.device = device := by
  have h1 := new_inv hnew
  have h2 := run_sameHandles ops hrun
  exact ⟨by rw [h2.1]; exact h1.1, by rw [h2.2.1]; exact h1.2.1,
    by rw [h2.2.2.1]; exact h1.2.2.1, by rw [h2.2.2.2]; exact h1.2.2.2.1⟩

theorem stream_of_length {g : Impl} (hlen : g.streamPtr.length = NumStreams) (index : Nat) :
    ∃ h, g.stream index = .ok h ∧
      g.streamPtr[if index < NumStreams then index else EventStream]? = some h := by
  have hlt : (if index < NumStreams then index else EventStream) < g.streamPtr.length := by
    rw [hlen]; unfold NumStreams EventStream; split <;> omega
  have hidx : (if index ≥ g.streamPtr.length then EventStream else index) =
      (if index < NumStreams then index else EventStream) := by
    rw [hlen]; unfold NumStreams EventStream; split <;> split <;> omega
  refine ⟨g.streamPtr.get ⟨_, hlt⟩, ?_, ?_⟩
  · unfold Impl.stream
    rw [hidx, List.getElem?_eq_getElem hlt]
    rfl
  · rw [List.getElem?_eq_getElem hlt]
    rfl

/-- Claim C8.  In every state of a manager, reached from its construction by any
sequence of calls, the stream vector has exactly `NumStreams = 5` elements, and
`Impl::stream(index)` returns for every `index`: the handle stored at position
`index` when `index < NumStreams`, and the handle stored at position `EventStream = 4`
otherwise; the position read is within the vector. -/
theorem C8_stream_clamps (P : Platform) (device : Option Nat) (log : List Event)
    (g0 g : Impl) (ops : List Op) (hnew : Impl.new P device log = .ok g0)
    (hrun : g0.run P ops = .ok g) (index : Nat) :
    NumStreams = 5 ∧ EventStream = 4 ∧ g.streamPtr.length = NumStreams ∧
      (if index < NumStreams then index else EventStream) < g.streamPtr.length ∧
      ∃ h, g.stream index = .ok h ∧
        g.streamPtr[if index < NumStreams then index else EventStream]? = some h := by
  have hlen := (reachable_lengths hnew hrun).1
  refine ⟨rfl, rfl, hlen, ?_, stream_of_length hlen index⟩
  rw [hlen]; unfold NumStreams EventStream; split <;> omega

/-- Claim C8 on the demonstration platform, after a few calls, for the largest
`size_t` value. -/
theorem C8_stream_clamps_witness :
    Impl.new demoPlatform (some 0) [] = .ok demoImpl ∧
    (∃ g, demoImpl.run demoPlatform
        [Op.alloc 4 16 MemType.GPU, Op.timerStart 1 autoStream, Op.synchronize 9] = .ok g ∧
      NumStreams = 5 ∧ EventStream = 4 ∧ g.streamPtr.length = NumStreams ∧
      (if SIZE_MAX < NumStreams then SIZE_MAX else EventStream) < g.streamPtr.length ∧
      ∃ h, g.stream SIZE_MAX = .ok h ∧
        g.streamPtr[if SIZE_MAX < NumStreams then SIZE_MAX else EventStream]? = some h) := by
  have hrun : ∃ g, demoImpl.run demoPlatform
      [Op.alloc 4 16 MemType.GPU, Op.timerStart 1 autoStream, Op.synchronize 9] = .ok g :=
    ⟨_, rfl⟩
  obtain ⟨g, hg⟩ := hrun
  exact ⟨demoImpl_new, g, hg,
    C8_stream_clamps demoPlatform (some 0) [] demoImpl g _ demoImpl_new hg SIZE_MAX⟩

theorem autoStream_eq : autoStream = SIZE_MAX := by decide

theorem vecAt_of_lt {v : List Handle} {i : Nat} (h : i < v.length) :
    ∃ x, v[i]? = some x ∧ vecAt v i = .ok x := by
  refine ⟨v.get ⟨i, h⟩, ?_, ?_⟩
  · rw [List.getElem?_eq_getElem h]; rfl
  · unfold vecAt
    rw [List.getElem?_eq_getElem h]; rfl

/-- Claim C9.  In every state of a manager, reached from its construction by any
sequence of calls, and for every event index `e` (below `NumEvents`, the size of the
marker vectors): `timerStart(e)` and `timerStop(e)` with the default stream index
(`~0`, the largest `size_t`) are the checked platform call `cudaEventRecord` of the
start, respectively stop, marker of `e` on the stream stored at position
`min(e, EventStream)`, which is position `e` when `e < EventStream` and position
`EventStream` otherwise; with any other stream index `si` they record the marker on
`stream(si)`.  The checked call returns, with the call added to the journal, when the
platform reports success. -/
theorem C9_timer_default_stream (P : Platform) (device : Option Nat) (log : List Event)
    (g0 g : Impl) (ops : List Op) (hnew : Impl.new P device log = .ok g0)
    (hrun : g0.run P ops = .ok g) (e : Nat) (he : e < NumEvents) :
    autoStream = SIZE_MAX ∧ timerStream e autoStream = min e EventStream ∧
    ∃ evStart evStop, g.eventStart[e]? = some evStart ∧ g.eventStop[e]? = some evStop ∧
      (∃ st, g.streamPtr[min e EventStream]? = some st ∧
        g.streamPtr[if e < EventStream then e else EventStream]? = some st ∧
        g.timerStart P e autoStream = g.issue P (Call.cudaEventRecord evStart st) ∧
        g.timerStop P e autoStream = g.issue P (Call.cudaEventRecord evStop st)) ∧
      (∀ si, si ≠ autoStream →
        ∃ st, g.stream si = .ok st ∧
          g.timerStart P e si = g.issue P (Call.cudaEventRecord evStart st) ∧
          g.timerStop P e si = g.issue P (Call.cudaEventRecord evStop st)) ∧
      (∀ c, (P g.log c).rc = 0 →
        g.issue P c = .ok { g with log := g.log ++ [Event.gpu c (P g.log c)] }) := by
  obtain ⟨hlen, hs, ht, -⟩ := reachable_lengths hnew hrun
  obtain ⟨evStart, hs1, hs2⟩ := vecAt_of_lt (v := g.eventStart) (i := e) (by rw [hs]; exact he)
  obtain ⟨evStop, ht1, ht2⟩ := vecAt_of_lt (v := g.eventStop) (i := e) (by rw [ht]; exact he)
  have hauto : timerStream e autoStream = min e EventStream := by simp [timerStream]
  refine ⟨autoStream_eq, hauto, evStart, evStop, hs1, ht1, ?_, ?_, fun c hc => issue_ok hc⟩
  · obtain ⟨st, hst1, hst2⟩ := stream_of_length hlen (min e EventStream)
    have hmin : (if min e EventStream < NumStreams then min e EventStream else EventStream) =
        min e EventStream := by
      unfold NumStreams EventStream; split <;> omega
    have hmin2 : (if e < EventStream then e else EventStream) = min e EventStream := by
      unfold EventStream; split <;> omega
    rw [hmin] at hst2
    refine ⟨st, hst2, by rw [hmin2]; exact hst2, ?_, ?_⟩
    · simp only [Impl.timerStart, hs2, hauto, hst1]
    · simp only [Impl.timerStop, ht2, hauto, hst1]
  · intro si hsi
    obtain ⟨st, hst1, -⟩ := stream_of_length hlen si
    have hexp : timerStream e si = si := by
      unfold timerStream
      rw [if_neg (fun h => hsi h.symm)]
    refine ⟨st, hst1, ?_, ?_⟩
    · simp only [Impl.timerStart, hs2, hexp, hst1]
    · simp only [Impl.timerStop, ht2, hexp, hst1]

/-- Claim C9 on the demonstration platform, for event 2 on a manager that has made some
calls. -/
theorem C9_timer_default_stream_witness :
    Impl.new demoPlatform (some 0) [] = .ok demoImpl ∧ 2 < NumEvents ∧
    (∃ g, demoImpl.run demoPlatform [Op.alloc 4 16 MemType.GPU, Op.synchronize 9] = .ok g ∧
      autoStream = SIZE_MAX ∧ timerStream 2 autoStream = min 2 EventStream ∧
      ∃ evStart evStop, g.eventStart[2]? = some evStart ∧ g.eventStop[2]? = some evStop ∧
        (∃ st, g.streamPtr[min 2 EventStream]? = some st ∧
          g.streamPtr[if 2 < EventStream then 2 else EventStream]? = some st ∧
          g.timerStart demoPlatform 2 autoStream =
            g.issue demoPlatform (Call.cudaEventRecord evStart st) ∧
          g.timerStop demoPlatform 2 autoStream =
            g.issue demoPlatform (Call.cudaEventRecord evStop st)) ∧
        (∀ si, si ≠ autoStream →
          ∃ st, g.stream si = .ok st ∧
            g.timerStart demoPlatform 2 si =
              g.issue demoPlatform (Call.cudaEventRecord evStart st) ∧
            g.timerStop demoPlatform 2 si =
              g.issue demoPlatform (Call.cudaEventRecord evStop st)) ∧
        (∀ c, (demoPlatform g.log c).rc = 0 →
          g.issue demoPlatform c =
            .ok { g with log := g.log ++ [Event.gpu c (demoPlatform g.log c)] })) := by
  have hrun : ∃ g, demoImpl.run demoPlatform
      [Op.alloc 4 16 MemType.GPU, Op.synchronize 9] = .ok g := ⟨_, rfl⟩
  obtain ⟨g, hg⟩ := hrun
  exact ⟨demoImpl_new, by decide, g, hg,
    C9_timer_default_stream demoPlatform (some 0) [] demoImpl g _ demoImpl_new hg 2
      (by decide)⟩

/-! ## Teardown -/

theorem calls_append (l1 l2 : List Event) : calls (l1 ++ l2) = calls l1 ++ calls l2 := by
  simp [calls, List.filterMap_append]

theorem calls_gpu (c : Call) (r : Response) : calls [Event.gpu c r] = [c] := rfl

theorem length_five {l : List Handle} (h : l.length = 5) : ∃ a b c d e, l = [a, b, c, d, e] := by
  rcases l with _ | ⟨a, _ | ⟨b, _ | ⟨c, _ | ⟨d, _ | ⟨e, _ | ⟨f, l⟩⟩⟩⟩⟩⟩ <;>
    simp at h
  exact ⟨a, b, c, d, e, rfl⟩

theorem stream_of_lt {g : Impl} {i : Nat} (h : i < g.streamPtr.length) :
    g.stream i = .ok (g.streamPtr.getD i 0) := by
  unfold Impl.stream
  rw [if_neg (by omega), List.getElem?_eq_getElem h, List.getD_eq_getElem _ _ h]

theorem vecAt_of_lt_getD {v : List Handle} {i : Nat} (h : i < v.length) :
    vecAt v i = .ok (v.getD i 0) := by
  unfold vecAt
  rw [List.getElem?_eq_getElem h, List.getD_eq_getElem _ _ h]

theorem issue_succeeds {P : Platform} (hP : P.succeeds) (g : Impl) (c : Call) :
    ∃ ev, g.issue P c = .ok { g with log := g.log ++ [ev] } ∧ calls [ev] = [c] :=
  ⟨_, issue_ok (hP _ _), rfl⟩

theorem syncLoop_ok {P : Platform} (hP : P.succeeds) (is : List Nat) :
    ∀ g : Impl, (∀ i ∈ is, i < g.streamPtr.length) →
      ∃ evs, Impl.syncLoop P is g = .ok { g with log := g.log ++ evs } ∧
        calls evs = is.map (fun i => Call.cudaStreamSynchronize (g.streamPtr.getD i 0)) := by
  induction is with
  | nil => intro g _; exact ⟨[], by simp [Impl.syncLoop], rfl⟩
  | cons i is ih =>
    intro g hlt
    have hi := hlt i (List.mem_cons_self _ _)
    obtain ⟨ev, hev, hc⟩ := issue_succeeds hP g (Call.cudaStreamSynchronize (g.streamPtr.getD i 0))
    have hstep : g.synchronize P i = .ok { g with log := g.log ++ [ev] } := by
      unfold Impl.synchronize
      rw [stream_of_lt hi]
      exact hev
    obtain ⟨evs, h1, h2⟩ := ih { g with log := g.log ++ [ev] }
      (fun j hj => hlt j (List.mem_cons_of_mem _ hj))
    refine ⟨ev :: evs, ?_, ?_⟩
    · simp only [Impl.syncLoop, hstep, h1, List.append_assoc, List.singleton_append]
    · rw [← List.singleton_append, calls_append, hc, h2]
      rfl

theorem destroyStreams_ok {P : Platform} (hP : P.succeeds) (is : List Nat) :
    ∀ g : Impl, (∀ i ∈ is, i < g.streamPtr.length) →
      ∃ evs, Impl.destroyStreams P is g = .ok { g with log := g.log ++ evs } ∧
        calls evs = is.map (fun i => Call.cudaStreamDestroy (g.streamPtr.getD i 0)) := by
  induction is with
  | nil => intro g _; exact ⟨[], by simp [Impl.destroyStreams], rfl⟩
  | cons i is ih =>
    intro g hlt
    have hi := hlt i (List.mem_cons_self _ _)
    obtain ⟨ev, hev, hc⟩ := issue_succeeds hP g (Call.cudaStreamDestroy (g.streamPtr.getD i 0))
    obtain ⟨evs, h1, h2⟩ := ih { g with log := g.log ++ [ev] }
      (fun j hj => hlt j (List.mem_cons_of_mem _ hj))
    refine ⟨ev :: evs, ?_, ?_⟩
    · simp only [Impl.destroyStreams, vecAt_of_lt_getD hi, hev, h1,
        List.append_assoc, List.singleton_append]
    · rw [← List.singleton_append, calls_append, hc, h2]
      rfl

theorem destroyEvents_ok {P : Platform} (hP : P.succeeds) (is : List Nat) :
    ∀ g : Impl, (∀ i ∈ is, i < g.eventStart.length ∧ i < g.eventStop.length) →
      ∃ evs, Impl.destroyEvents P is g = .ok { g with log := g.log ++ evs } ∧
        calls evs = is.flatMap (fun i => [Call.cudaEventDestroy (g.eventStart.getD i 0),
          Call.cudaEventDestroy (g.eventStop.getD i 0)]) := by
  induction is with
  | nil => intro g _; exact ⟨[], by simp [Impl.destroyEvents], rfl⟩
  | cons i is ih =>
    intro g hlt
    have hi := hlt i (List.mem_cons_self _ _)
    obtain ⟨ev1, hev1, hc1⟩ :=
      issue_succeeds hP g (Call.cudaEventDestroy (g.eventStart.getD i 0))
    obtain ⟨ev2, hev2, hc2⟩ := issue_succeeds hP { g with log := g.log ++ [ev1] }
      (Call.cudaEventDestroy (g.eventStop.getD i 0))
    obtain ⟨evs, h1, h2⟩ := ih { g with log := g.log ++ [ev1, ev2] }
      (fun j hj => hlt j (List.mem_cons_of_mem _ hj))
    have hev2a : Impl.issue P { g with log := g.log ++ [ev1] }
        (Call.cudaEventDestroy (g.eventStop.getD i 0)) =
          .ok { g with log := g.log ++ [ev1, ev2] } := by
      rw [hev2]; simp
    have h1a : Impl.destroyEvents P is { g with log := g.log ++ [ev1, ev2] } =
        .ok { g with log := g.log ++ ev1 :: ev2 :: evs } := by
      rw [h1]; simp
    refine ⟨ev1 :: ev2 :: evs, ?_, ?_⟩
    · simp only [Impl.destroyEvents, vecAt_of_lt_getD hi.1, hev1, vecAt_of_lt_getD hi.2, hev2a,
        h1a, List.append_assoc, List.singleton_append, List.cons_append, List.nil_append]
    · have : ev1 :: ev2 :: evs = [ev1] ++ ([ev2] ++ evs) := rfl
      rw [this, calls_append, calls_append, hc1, hc2, h2]
      rfl

theorem releaseAll_ok (P : Platform) (deleter : Addr → Call) (ps : List Addr) :
    ∀ log : List Event, ∃ evs, releaseAll P deleter ps log = log ++ evs ∧
      calls evs = ps.map deleter := by
  induction ps with
  | nil => intro log; exact ⟨[], by simp [releaseAll], rfl⟩
  | cons p ps ih =>
    intro log
    obtain ⟨evs, h1, h2⟩ := ih (log ++ [Event.gpu (deleter p) (P log (deleter p))])
    refine ⟨Event.gpu (deleter p) (P log (deleter p)) :: evs, ?_, ?_⟩
    · simp only [releaseAll, h1, List.append_assoc, List.singleton_append]
    · rw [← List.singleton_append, calls_append, calls_gpu, h2]
      rfl

theorem range_map_five (f : Handle → Call) {l : List Handle} (h : l.length = 5) :
    (List.range 5).map (fun i => f (l.getD i 0)) = l.map f := by
  obtain ⟨a, b, c, d, e, rfl⟩ := length_five h
  rfl

theorem range_flatMap_five {l1 l2 : List Handle} (h1 : l1.length = 5) (h2 : l2.length = 5) :
    (List.range 5).flatMap (fun i => [Call.cudaEventDestroy (l1.getD i 0),
      Call.cudaEventDestroy (l2.getD i 0)]) = eventDestroyCalls l1 l2 := by
  obtain ⟨a, b, c, d, e, rfl⟩ := length_five h1
  obtain ⟨a2, b2, c2, d2, e2, rfl⟩ := length_five h2
  rfl

/-- The destructor of a manager with a device, on a platform that succeeds: the journal
grows by the flushes `e1`, the releases `e2` of the host list and `e3` of the device
list, the destructions `e4` of the streams and `e5` of the markers, and the trace. -/
theorem dtor_valid {P : Platform} (hP : P.succeeds) {g : Impl} (hdev : g.device.isNone = false)
    (hS : g.streamPtr.length = NumStreams) (hE1 : g.eventStart.length = NumEvents)
    (hE2 : g.eventStop.length = NumEvents) :
    ∃ e1 e2 e3 e4 e5 : List Event,
      Impl.syncLoop P (List.range NumStreams) g.clearThrustCache =
        .ok { g with thrustCache := [], log := g.log ++ e1 } ∧
      g.dtorBody P =
        .ok { g with thrustCache := [], hostPtr := [], gpuPtr := [],
                     log := g.log ++ (e1 ++ (e2 ++ (e3 ++ (e4 ++ (e5 ++ [Event.trace]))))) } ∧
      g.destroy P = .ok (g.log ++ (e1 ++ (e2 ++ (e3 ++ (e4 ++ (e5 ++ [Event.trace])))))) ∧
      calls e1 = g.streamPtr.map Call.cudaStreamSynchronize ∧
      calls e2 = g.hostPtr.map Call.cudaFreeHost ∧
      calls e3 = g.gpuPtr.map Call.cudaFree ∧
      calls e4 = g.streamPtr.map Call.cudaStreamDestroy ∧
      calls e5 = eventDestroyCalls g.eventStart g.eventStop := by
  have hS5 : g.streamPtr.length = 5 := hS
  have hA5 : g.eventStart.length = 5 := hE1
  have hB5 : g.eventStop.length = 5 := hE2
  have hr1 : List.range NumStreams = List.range 5 := rfl
  have hr2 : List.range NumEvents = List.range 5 := rfl
  have hbS : ∀ i ∈ List.range 5, i < g.streamPtr.length := by
    intro i hi; rw [hS5]; exact List.mem_range.mp hi
  have hbE : ∀ i ∈ List.range 5, i < g.eventStart.length ∧ i < g.eventStop.length := by
    intro i hi; rw [hA5, hB5]; exact ⟨List.mem_range.mp hi, List.mem_range.mp hi⟩
  obtain ⟨e1, h1, c1⟩ := syncLoop_ok hP (List.range 5) g.clearThrustCache hbS
  obtain ⟨e2, h2, c2⟩ := releaseAll_ok P Call.cudaFreeHost g.hostPtr (g.log ++ e1)
  obtain ⟨e3, h3, c3⟩ := releaseAll_ok P Call.cudaFree g.gpuPtr (g.log ++ e1 ++ e2)
  obtain ⟨e4, h4, c4⟩ := destroyStreams_ok hP (List.range 5)
    { g with thrustCache := [], hostPtr := [], gpuPtr := [], log := g.log ++ e1 ++ e2 ++ e3 } hbS
  obtain ⟨e5, h5, c5⟩ := destroyEvents_ok hP (List.range 5)
    { g with thrustCache := [], hostPtr := [], gpuPtr := [],
             log := g.log ++ e1 ++ e2 ++ e3 ++ e4 } hbE
  have h1a : Impl.syncLoop P (List.range NumStreams) g.clearThrustCache =
      .ok { g with thrustCache := [], log := g.log ++ e1 } := by rw [hr1, h1]; rfl
  have hclear : (({ g with thrustCache := [], log := g.log ++ e1 } : Impl).clearHostPtr P).clearGpuPtr P
      = { g with thrustCache := [], hostPtr := [], gpuPtr := [],
                 log := g.log ++ e1 ++ e2 ++ e3 } := by
    simp only [Impl.clearHostPtr, Impl.clearGpuPtr, h2, h3]
  have hbody : g.dtorBody P =
      .ok { g with thrustCache := [], hostPtr := [], gpuPtr := [],
                   log := g.log ++ (e1 ++ (e2 ++ (e3 ++ (e4 ++ (e5 ++ [Event.trace]))))) } := by
    have h4a : Impl.destroyStreams P (List.range 5)
        { g with thrustCache := [], hostPtr := [], gpuPtr := [],
                 log := g.log ++ e1 ++ e2 ++ e3 } =
        .ok { g with thrustCache := [], hostPtr := [], gpuPtr := [],
                     log := g.log ++ e1 ++ e2 ++ e3 ++ e4 } := h4
    have h5a : Impl.destroyEvents P (List.range 5)
        { g with thrustCache := [], hostPtr := [], gpuPtr := [],
                 log := g.log ++ e1 ++ e2 ++ e3 ++ e4 } =
        .ok { g with thrustCache := [], hostPtr := [], gpuPtr := [],
                     log := g.log ++ e1 ++ e2 ++ e3 ++ e4 ++ e5 } := h5
    unfold Impl.dtorBody
    rw [if_neg (by simp [hdev]), h1a]
    dsimp only
    rw [hclear, hr1, h4a]
    dsimp only
    rw [hr2, h5a]
    dsimp only
    simp only [List.append_assoc]
  refine ⟨e1, e2, e3, e4, e5, h1a, hbody, ?_, ?_, c2, c3, ?_, ?_⟩
  · unfold Impl.destroy
    rw [hbody]
    simp [Impl.destroyMembers, Impl.clearThrustCache, Impl.clearGpuPtr, Impl.clearHostPtr,
      releaseAll]
  · rw [c1]; exact range_map_five _ hS5
  · rw [c4]; exact range_map_five _ hS5
  · rw [c5]; exact range_flatMap_five hA5 hB5

/-- The destruction of a manager without a device: the body of the destructor
returns at once, and the destruction of the members releases what is tracked. -/
theorem dtor_no_device (P : Platform) {g : Impl} (hdev : g.device.isNone = true) :
    g.dtorBody P = .ok g ∧
    ∃ e1 e2 : List Event, g.destroy P = .ok (g.log ++ (e1 ++ e2)) ∧
      calls e1 = g.gpuPtr.map Call.cudaFree ∧ calls e2 = g.hostPtr.map Call.cudaFreeHost := by
  have hbody : g.dtorBody P = .ok g := by
    unfold Impl.dtorBody
    rw [if_pos hdev]
  obtain ⟨e1, h1, c1⟩ := releaseAll_ok P Call.cudaFree g.gpuPtr g.log
  obtain ⟨e2, h2, c2⟩ := releaseAll_ok P Call.cudaFreeHost g.hostPtr (g.log ++ e1)
  refine ⟨hbody, e1, e2, ?_, c1, c2⟩
  unfold Impl.destroy
  rw [hbody]
  simp only [Impl.destroyMembers, Impl.clearThrustCache, Impl.clearGpuPtr, Impl.clearHostPtr, h1,
    h2, List.append_assoc]

theorem demoPlatform_succeeds : demoPlatform.succeeds := fun _ _ => rfl

/-- Claim C6 as stated fails in its last part.  A manager constructed on the
demonstration platform without a device allocates one device block; its destruction
issues a platform call, the `cudaFree` of that block. -/
theorem C6_teardown_counterexample :
    Impl.new demoPlatform none [] = .ok { demoImpl with device := none } ∧
    Impl.run demoPlatform { demoImpl with device := none } [Op.alloc 1 64 MemType.GPU] =
      .ok noDeviceImpl ∧
    noDeviceImpl.destroy demoPlatform =
      .ok (noDeviceImpl.log ++ [Event.gpu (Call.cudaFree 7936) ⟨0, 8192⟩]) :=
  ⟨by rfl, by rfl, by rfl⟩

/-- Claim C6, amended.  For a manager reached from its construction by any sequence of
calls, on a platform whose calls succeed.  With a device: the destruction extends the
journal by `e1 ++ e2 ++ e3 ++ e4 ++ e5` and the trace, where `e1` is one
`cudaStreamSynchronize` for each of the `NumStreams` streams, `e2` one `cudaFreeHost`
for each entry of the host list, `e3` one `cudaFree` for each entry of the device
list, `e4` one `cudaStreamDestroy` for each stream and `e5` the `cudaEventDestroy` of
the start and the stop marker of each of the `NumEvents` pairs; so every stream is
flushed before anything is released or destroyed.  Without a device: the body of the
destructor returns the state as it is, and the only platform calls of the destruction
are the releases of the entries still in the device list and in the host list, made
when these members are destroyed. -/
theorem C6_teardown_amended (P : Platform) (hP : P.succeeds) (device : Option Nat)
    (log : List Event) (g0 g : Impl) (ops : List Op)
    (hnew : Impl.new P device log = .ok g0) (hrun : g0.run P ops = .ok g) :
    (device.isSome = true →
      ∃ e1 e2 e3 e4 e5 : List Event,
        g.destroy P = .ok (g.log ++ (e1 ++ (e2 ++ (e3 ++ (e4 ++ (e5 ++ [Event.trace])))))) ∧
        calls e1 = g.streamPtr.map Call.cudaStreamSynchronize ∧
        calls e2 = g.hostPtr.map Call.cudaFreeHost ∧
        calls e3 = g.gpuPtr.map Call.cudaFree ∧
        calls e4 = g.streamPtr.map Call.cudaStreamDestroy ∧
        calls e5 = eventDestroyCalls g.eventStart g.eventStop ∧
        (calls e1).length = NumStreams ∧ (calls e4).length = NumStreams ∧
        (calls e5).length = 2 * NumEvents) ∧
    (device = none →
      g.dtorBody P = .ok g ∧
      ∃ e1 e2 : List Event, g.destroy P = .ok (g.log ++ (e1 ++ e2)) ∧
        calls e1 = g.gpuPtr.map Call.cudaFree ∧ calls e2 = g.hostPtr.map Call.cudaFreeHost) := by
  obtain ⟨hS, hE1, hE2, hd⟩ := reachable_lengths hnew hrun
  constructor
  · intro hdev
    have hdev2 : g.device.isNone = false := by
      rw [hd]; cases device <;> simp at hdev ⊢
    obtain ⟨e1, e2, e3, e4, e5, -, -, h3, c1, c2, c3, c4, c5⟩ := dtor_valid hP hdev2 hS hE1 hE2
    refine ⟨e1, e2, e3, e4, e5, h3, c1, c2, c3, c4, c5, ?_, ?_, ?_⟩
    · rw [c1, List.length_map, hS]
    · rw [c4, List.length_map, hS]
    · rw [c5]
      obtain ⟨a, b, c, d, e, h1⟩ := length_five (show g.eventStart.length = 5 from hE1)
      obtain ⟨a2, b2, c2, d2, e2, h2⟩ := length_five (show g.eventStop.length = 5 from hE2)
      rw [h1, h2]
      rfl
  · intro hdev
    exact dtor_no_device P (by rw [hd, hdev]; rfl)

/-- Claim C6, amended, on the demonstration platform: the manager `cachedImpl` with a
device, and the manager `noDeviceImpl` without one. -/
theorem C6_teardown_amended_witness :
    demoPlatform.succeeds ∧
    (Impl.new demoPlatform (some 0) [] = .ok demoImpl ∧
      demoImpl.run demoPlatform
        [Op.cacheAllocate 0 1024, Op.cacheAllocate 0 512, Op.cacheDeallocate 0 7936] =
          .ok cachedImpl ∧
      (some 0 : Option Nat).isSome = true ∧
      ∃ e1 e2 e3 e4 e5 : List Event,
        cachedImpl.destroy demoPlatform =
          .ok (cachedImpl.log ++ (e1 ++ (e2 ++ (e3 ++ (e4 ++ (e5 ++ [Event.trace])))))) ∧
        calls e1 = cachedImpl.streamPtr.map Call.cudaStreamSynchronize ∧
        calls e2 = cachedImpl.hostPtr.map Call.cudaFreeHost ∧
        calls e3 = cachedImpl.gpuPtr.map Call.cudaFree ∧
        calls e4 = cachedImpl.streamPtr.map Call.cudaStreamDestroy ∧
        calls e5 = eventDestroyCalls cachedImpl.eventStart cachedImpl.eventStop ∧
        (calls e1).length = NumStreams ∧ (calls e4).length = NumStreams ∧
        (calls e5).length = 2 * NumEvents) ∧
    (Impl.new demoPlatform none [] = .ok { demoImpl with device := none } ∧
      Impl.run demoPlatform { demoImpl with device := none } [Op.alloc 1 64 MemType.GPU] =
        .ok noDeviceImpl ∧
      noDeviceImpl.dtorBody demoPlatform = .ok noDeviceImpl ∧
      ∃ e1 e2 : List Event, noDeviceImpl.destroy demoPlatform = .ok (noDeviceImpl.log ++ (e1 ++ e2)) ∧
        calls e1 = noDeviceImpl.gpuPtr.map Call.cudaFree ∧
        calls e2 = noDeviceImpl.hostPtr.map Call.cudaFreeHost) :=
  ⟨demoPlatform_succeeds,
    ⟨demoImpl_new, by rfl, rfl,
      (C6_teardown_amended demoPlatform demoPlatform_succeeds (some 0) [] demoImpl cachedImpl
        [Op.cacheAllocate 0 1024, Op.cacheAllocate 0 512, Op.cacheDeallocate 0 7936]
        demoImpl_new (by rfl)).1 rfl⟩,
    ⟨by rfl, by rfl,
      (C6_teardown_amended demoPlatform demoPlatform_succeeds none []
        { demoImpl with device := none } noDeviceImpl [Op.alloc 1 64 MemType.GPU]
        (by rfl) (by rfl)).2 rfl⟩⟩

/-- Claim C7 as stated fails.  The manager `cachedImpl` is reached from `demoImpl` by
calls on its first cache, which then holds the blocks 7936 and 8192.  The statement
`thrustCache.clear()` of the destructor leaves both blocks in the device list and
adds nothing to the journal: it releases nothing.  In the destruction the two blocks
are released by `cudaFree` only after the five `cudaStreamSynchronize` calls of the
flush loop. -/
theorem C7_cache_clear_counterexample :
    demoImpl.run demoPlatform
      [Op.cacheAllocate 0 1024, Op.cacheAllocate 0 512, Op.cacheDeallocate 0 7936] =
        .ok cachedImpl ∧
    cachedImpl.cached = [7936, 8192] ∧
    cachedImpl.clearThrustCache.gpuPtr = [7936, 8192] ∧
    cachedImpl.clearThrustCache.log = cachedImpl.log ∧
    (cachedImpl.destroy demoPlatform).map (fun l => calls (l.drop cachedImpl.log.length)) =
      .ok [Call.cudaStreamSynchronize 4096, Call.cudaStreamSynchronize 4352,
        Call.cudaStreamSynchronize 4608, Call.cudaStreamSynchronize 4864,
        Call.cudaStreamSynchronize 5120,
        Call.cudaFree 7936, Call.cudaFree 8192,
        Call.cudaStreamDestroy 4096, Call.cudaStreamDestroy 4352, Call.cudaStreamDestroy 4608,
        Call.cudaStreamDestroy 4864, Call.cudaStreamDestroy 5120,
        Call.cudaEventDestroy 5376, Call.cudaEventDestroy 5632, Call.cudaEventDestroy 5888,
        Call.cudaEventDestroy 6144, Call.cudaEventDestroy 6400, Call.cudaEventDestroy 6656,
        Call.cudaEventDestroy 6912, Call.cudaEventDestroy 7168, Call.cudaEventDestroy 7424,
        Call.cudaEventDestroy 7680] :=
  ⟨by rfl, by rfl, by rfl, by rfl, by rfl⟩

theorem createStreams_cache {P : Platform} (is : List Nat) :
    ∀ {g g1 : Impl}, Impl.createStreams P is g = .ok g1 → g1.thrustCache = g.thrustCache := by
  induction is with
  | nil => intro g g1 h; cases h; rfl
  | cons ii rest ih =>
    intro g g1 h
    simp only [Impl.createStreams] at h
    split at h
    · split at h
      · cases h
      · have := ih h
        exact this
    · cases h

theorem createEvents_cache {P : Platform} (is : List Nat) :
    ∀ {g g1 : Impl}, Impl.createEvents P is g = .ok g1 → g1.thrustCache = g.thrustCache := by
  induction is with
  | nil => intro g g1 h; cases h; rfl
  | cons ii rest ih =>
    intro g g1 h
    simp only [Impl.createEvents] at h
    split at h
    · split at h
      · cases h
      · split at h
        · split at h
          · cases h
          · have := ih h
            exact this
        · cases h
    · cases h

/-- The caches of a manager hold nothing when the constructor returns. -/
theorem new_cachedTracked {P : Platform} {device : Option Nat} {log : List Event} {g : Impl}
    (h : Impl.new P device log = .ok g) : g.cachedTracked := by
  unfold Impl.new at h
  split at h
  · cases h
  · rename_i g1 heq
    have h1 : g1.thrustCache = List.replicate NumStreams ThrustAllocator.empty :=
      createStreams_cache _ heq
    have h2 := createEvents_cache _ h
    intro a ha
    unfold Impl.cached at ha
    rw [h2, h1] at ha
    obtain ⟨t, ht, hat⟩ := List.mem_flatMap.mp ha
    rw [(List.mem_replicate.mp ht).2] at hat
    simp [ThrustAllocator.empty, ThrustAllocator.held] at hat

/-- The device list and the caches are the same in `g1` as in `g`. -/
theorem cachedTracked_of_eq {g g1 : Impl} (hc : g1.thrustCache = g.thrustCache)
    (hg : ∀ x ∈ g.gpuPtr, x ∈ g1.gpuPtr) (h : g.cachedTracked) : g1.cachedTracked := by
  intro a ha
  unfold Impl.cached at ha
  rw [hc] at ha
  exact hg a (h a ha)

theorem issue_cachedTracked {P : Platform} {g g1 : Impl} {c : Call}
    (h : g.issue P c = .ok g1) (hinv : g.cachedTracked) : g1.cachedTracked := by
  rw [issue_inv h]
  exact cachedTracked_of_eq rfl (fun _ hx => hx) hinv

theorem allocate_memory {P : Platform} {g g1 : Impl} {n : Nat} {type : MemType} {a : Addr}
    (h : g.allocate P n type = .ok (a, g1)) :
    g1.thrustCache = g.thrustCache ∧ (∀ x ∈ g.gpuPtr, x ∈ g1.gpuPtr) ∧
      (type = MemType.GPU → a = (P g.log (Call.cudaMalloc n)).out ∧ (a ≠ 0 → a ∈ g1.gpuPtr)) := by
  by_cases ht : type = MemType.GPU
  · subst ht
    by_cases hrc : (P g.log (Call.cudaMalloc n)).rc = 0
    · rw [allocate_gpu_ok hrc] at h
      simp only [Except.ok.injEq, Prod.mk.injEq] at h
      obtain ⟨rfl, rfl⟩ := h
      refine ⟨rfl, ?_, fun _ => ⟨rfl, ?_⟩⟩
      · intro x hx
        show x ∈ (if _ then _ else _)
        split
        · exact List.mem_append_left _ hx
        · exact hx
      · intro hne
        show _ ∈ (if _ then _ else _)
        rw [if_pos hne]
        exact List.mem_append_right _ (List.mem_singleton.mpr rfl)
    · rw [allocate_gpu_exit hrc] at h; cases h
  · by_cases hrc : (P g.log (Call.cudaMallocHost n)).rc = 0
    · rw [allocate_host_ok ht hrc] at h
      simp only [Except.ok.injEq, Prod.mk.injEq] at h
      obtain ⟨rfl, rfl⟩ := h
      exact ⟨rfl, fun _ hx => hx, fun h2 => absurd h2 ht⟩
    · rw [allocate_host_exit ht hrc] at h; cases h

/-- A call of `allocate` on a cache whose addresses are tracked: the addresses of the
cache are tracked afterwards, and nothing leaves the device list. -/
theorem cache_allocate_tracked {P : Platform} (hnn : P.noNull) {t t1 : ThrustAllocator}
    {g g1 : Impl} {size : Int} {a : Addr} (h : t.allocate P g size = .ok (a, t1, g1))
    (ht : ∀ x ∈ t.held, x ∈ g.gpuPtr) :
    g1.thrustCache = g.thrustCache ∧ (∀ x ∈ g.gpuPtr, x ∈ g1.gpuPtr) ∧
      (∀ x ∈ t1.held, x ∈ g1.gpuPtr) := by
  have hheld : ∀ (fr : List (Int × Addr)) (b : Addr),
      (∀ e ∈ fr, e ∈ t.freeBlockMap) →
      ∀ x ∈ ThrustAllocator.held ⟨fr, mapEmplace b size t.allocatedBlockMap⟩,
        x = b ∨ x ∈ t.held := by
    intro fr b hfr x hx
    unfold ThrustAllocator.held at hx ⊢
    rcases List.mem_append.mp hx with h1 | h1
    · obtain ⟨e, he, rfl⟩ := List.mem_map.mp h1
      exact Or.inr (List.mem_append_left _ (List.mem_map_of_mem _ (hfr e he)))
    · obtain ⟨e, he, rfl⟩ := List.mem_map.mp h1
      rcases mem_mapEmplace he with rfl | he
      · exact Or.inl rfl
      · exact Or.inr (List.mem_append_right _ (List.mem_map_of_mem _ he))
  cases hf : mmFind size t.freeBlockMap with
  | some f =>
    rw [cache_allocate_hit hf] at h
    simp only [Except.ok.injEq, Prod.mk.injEq] at h
    obtain ⟨rfl, rfl, rfl⟩ := h
    refine ⟨rfl, fun _ hx => hx, ?_⟩
    intro x hx
    have hsub : ∀ e ∈ mmEraseFound size t.freeBlockMap, e ∈ t.freeBlockMap :=
      fun e he => (List.eraseP_sublist t.freeBlockMap).subset he
    rcases hheld _ _ hsub x hx with rfl | h2
    · apply ht
      unfold ThrustAllocator.held
      exact List.mem_append_left _ (List.mem_map_of_mem _ (mmFind_some hf).2)
    · exact ht x h2
  | none =>
    by_cases hrc : (P g.log (Call.cudaMalloc (toSizeT size))).rc = 0
    · rw [cache_allocate_miss_ok hf hrc] at h
      simp only [Except.ok.injEq, Prod.mk.injEq] at h
      obtain ⟨rfl, rfl, rfl⟩ := h
      have hm := allocate_memory (allocate_gpu_ok hrc)
      refine ⟨hm.1, hm.2.1, ?_⟩
      intro x hx
      rcases hheld _ _ (fun _ he => he) x hx with rfl | h2
      · exact (hm.2.2 rfl).2 (hnn _ _)
      · exact hm.2.1 x (ht x h2)
    · rw [cache_allocate_miss_exit hf hrc] at h; cases h

theorem cache_deallocate_held (t : ThrustAllocator) (g : Impl) (p : Addr) :
    ∀ x ∈ (t.deallocate g p).1.held, x ∈ t.held := by
  intro x hx
  cases hf : mapFind p t.allocatedBlockMap with
  | none => rw [cache_deallocate_unknown hf] at hx; exact hx
  | some e =>
    rw [cache_deallocate_found hf] at hx
    unfold ThrustAllocator.held at hx ⊢
    rcases List.mem_append.mp hx with h1 | h1
    · obtain ⟨f, hfm, rfl⟩ := List.mem_map.mp h1
      rcases (mem_mmEmplace _ _ _ f).mp hfm with rfl | h2
      · exact List.mem_append_right _ (List.mem_map_of_mem _ (mapFind_some hf).2)
      · exact List.mem_append_left _ (List.mem_map_of_mem _ h2)
    · obtain ⟨f, hfm, rfl⟩ := List.mem_map.mp h1
      exact List.mem_append_right _
        (List.mem_map_of_mem _ ((List.eraseP_sublist t.allocatedBlockMap).subset hfm))

theorem cached_set {l : List ThrustAllocator} {i : Nat} {t1 : ThrustAllocator} {a : Addr}
    (h : a ∈ (l.set i t1).flatMap ThrustAllocator.held) :
    a ∈ t1.held ∨ a ∈ l.flatMap ThrustAllocator.held := by
  obtain ⟨t, ht, ha⟩ := List.mem_flatMap.mp h
  rcases List.mem_or_eq_of_mem_set ht with h1 | rfl
  · exact Or.inr (List.mem_flatMap.mpr ⟨t, h1, ha⟩)
  · exact Or.inl ha

theorem cached_of_getElem? {l : List ThrustAllocator} {i : Nat} {t : ThrustAllocator}
    (h : l[i]? = some t) : ∀ x ∈ t.held, x ∈ l.flatMap ThrustAllocator.held :=
  fun _ hx => List.mem_flatMap.mpr ⟨t, List.getElem?_mem h, hx⟩

/-- No call other than `Impl::free` lets a cached address leave the device list, on
a platform that never hands out `NULL`. -/
theorem step_cachedTracked {P : Platform} (hnn : P.noNull) {g g1 : Impl} {op : Op}
    (h : g.step P op = .ok g1) (hop : op.isFree = false) (hinv : g.cachedTracked) :
    g1.cachedTracked := by
  cases op with
  | alloc sz n type =>
    simp only [Impl.step] at h
    split at h
    · cases h
    · rename_i heq
      cases h
      have hm := allocate_memory heq
      exact cachedTracked_of_eq hm.1 hm.2.1 hinv
  | free p => cases hop
  | copy sz dst src n type index =>
    simp only [Impl.step, Impl.copy, Impl.implcopy] at h
    split at h
    · cases h
    · exact issue_cachedTracked h hinv
  | set sz dst value n index =>
    simp only [Impl.step, Impl.set, Impl.implset] at h
    split at h
    · cases h
    · exact issue_cachedTracked h hinv
  | streamWait si ei =>
    simp only [Impl.step, Impl.streamWait] at h
    split at h
    · cases h
    · split at h
      · cases h
      · exact issue_cachedTracked h hinv
  | timerStart ei si =>
    simp only [Impl.step, Impl.timerStart] at h
    split at h
    · cases h
    · split at h
      · cases h
      · exact issue_cachedTracked h hinv
  | timerStop ei si =>
    simp only [Impl.step, Impl.timerStop] at h
    split at h
    · cases h
    · split at h
      · cases h
      · exact issue_cachedTracked h hinv
  | timerElapsed ei =>
    simp only [Impl.step] at h
    split at h
    · cases h
    · rename_i v g2 heq
      cases h
      unfold Impl.timerElapsed at heq
      split at heq
      · cases heq
      · rename_i g3 hw
        have h3 : g3.cachedTracked := by
          split at hw
          · unfold Impl.streamWait at hw
            split at hw
            · cases hw
            · split at hw
              · cases hw
              · exact issue_cachedTracked hw hinv
          · cases hw; exact hinv
        split at heq
        · cases heq
        · split at heq
          · cases heq
          · split at heq
            · cases heq
            · cases heq
              exact cachedTracked_of_eq rfl (fun _ hx => hx) h3
  | synchronize si =>
    simp only [Impl.step, Impl.synchronize] at h
    split at h
    · cases h
    · exact issue_cachedTracked h hinv
  | deviceSynchronize => exact issue_cachedTracked h hinv
  | cacheAllocate i size =>
    simp only [Impl.step] at h
    split at h
    · cases h
    · rename_i t hget
      split at h
      · cases h
      · rename_i a t1 g2 heq
        cases h
        have ht : ∀ x ∈ t.held, x ∈ g.gpuPtr := fun x hx => hinv x (cached_of_getElem? hget x hx)
        obtain ⟨hc, hg, h1⟩ := cache_allocate_tracked hnn heq ht
        intro x hx
        rcases cached_set hx with h2 | h2
        · exact h1 x h2
        · rw [hc] at h2
          exact hg x (hinv x h2)
  | cacheDeallocate i p =>
    simp only [Impl.step] at h
    split at h
    · cases h
    · rename_i t hget
      cases h
      have hg : (t.deallocate g p).2.gpuPtr = g.gpuPtr ∧
          (t.deallocate g p).2.thrustCache = g.thrustCache := by
        unfold ThrustAllocator.deallocate
        split <;> exact ⟨rfl, rfl⟩
      intro x hx
      show x ∈ (t.deallocate g p).2.gpuPtr
      rw [hg.1]
      rcases cached_set hx with h2 | h2
      · exact hinv x (cached_of_getElem? hget x (cache_deallocate_held t g p x h2))
      · rw [hg.2] at h2
        exact hinv x h2

theorem run_cachedTracked {P : Platform} (hnn : P.noNull) (ops : List Op) :
    ∀ {g g1 : Impl}, g.run P ops = .ok g1 → (∀ op ∈ ops, op.isFree = false) →
      g.cachedTracked → g1.cachedTracked := by
  induction ops with
  | nil => intro g g1 h _ hinv; cases h; exact hinv
  | cons op ops ih =>
    intro g g1 h hops hinv
    simp only [Impl.run] at h
    split at h
    · cases h
    · rename_i g2 heq
      exact ih h (fun o ho => hops o (List.mem_cons_of_mem _ ho))
        (step_cachedTracked hnn heq (hops op (List.mem_cons_self _ _)) hinv)

theorem cudaFree_not_mem_eventDestroyCalls (a : Addr) (l1 l2 : List Handle) :
    Call.cudaFree a ∉ eventDestroyCalls l1 l2 := by
  unfold eventDestroyCalls
  intro h
  obtain ⟨p, -, hp⟩ := List.mem_flatMap.mp h
  simp at hp

/-- Claim C7, amended.  For a manager with a device, reached from its construction by
any sequence of calls, on a platform whose calls succeed.  Clearing the caches
(`thrustCache.clear()`) only drops the caches with their maps: the journal, the device
list and the host list are as before and no cache is left.  The flush loop that
follows runs to its end, adding the `NumStreams` flushes `e1` to the journal; only
then does the destruction release what the registry tracks: `e2`, one `cudaFreeHost`
for each entry of the host list, and `e3`, one `cudaFree` for each entry of the device
list; the streams (`e4`) and the markers (`e5`) are destroyed after that.  In the
whole destruction `cudaFree` is called on an address exactly when the address is in
the device list, so a cached address is released exactly when it is tracked there.
Every cached address is tracked there when the calls made on the manager contain no
`Impl::free` and the platform never handed out `NULL`. -/
theorem C7_cache_clear_amended (P : Platform) (hP : P.succeeds) (device : Option Nat)
    (log : List Event) (g0 g : Impl) (ops : List Op)
    (hnew : Impl.new P device log = .ok g0) (hrun : g0.run P ops = .ok g)
    (hdev : device.isSome = true) :
    g.clearThrustCache.log = g.log ∧ g.clearThrustCache.gpuPtr = g.gpuPtr ∧
    g.clearThrustCache.hostPtr = g.hostPtr ∧ g.clearThrustCache.thrustCache = [] ∧
    (∃ e1 e2 e3 e4 e5 : List Event,
      Impl.syncLoop P (List.range NumStreams) g.clearThrustCache =
        .ok { g with thrustCache := [], log := g.log ++ e1 } ∧
      g.destroy P = .ok (g.log ++ (e1 ++ (e2 ++ (e3 ++ (e4 ++ (e5 ++ [Event.trace])))))) ∧
      calls e1 = g.streamPtr.map Call.cudaStreamSynchronize ∧
      calls e2 = g.hostPtr.map Call.cudaFreeHost ∧
      calls e3 = g.gpuPtr.map Call.cudaFree ∧
      calls e4 = g.streamPtr.map Call.cudaStreamDestroy ∧
      calls e5 = eventDestroyCalls g.eventStart g.eventStop ∧
      (∀ a, Call.cudaFree a ∈ calls (e1 ++ (e2 ++ (e3 ++ (e4 ++ (e5 ++ [Event.trace]))))) ↔
        a ∈ g.gpuPtr) ∧
      (∀ a ∈ g.cached, a ∈ g.gpuPtr → Call.cudaFree a ∈ calls e3) ∧
      (∀ a ∈ g.cached, a ∉ g.gpuPtr →
        Call.cudaFree a ∉ calls (e1 ++ (e2 ++ (e3 ++ (e4 ++ (e5 ++ [Event.trace]))))))) ∧
    ((∀ op ∈ ops, op.isFree = false) → P.noNull → ∀ a ∈ g.cached, a ∈ g.gpuPtr) := by
  obtain ⟨hS, hE1, hE2, hd⟩ := reachable_lengths hnew hrun
  have hdev2 : g.device.isNone = false := by
    rw [hd]; cases device <;> simp at hdev ⊢
  obtain ⟨e1, e2, e3, e4, e5, h1, -, h3, c1, c2, c3, c4, c5⟩ := dtor_valid hP hdev2 hS hE1 hE2
  have hiff : ∀ a, Call.cudaFree a ∈
      calls (e1 ++ (e2 ++ (e3 ++ (e4 ++ (e5 ++ [Event.trace]))))) ↔ a ∈ g.gpuPtr := by
    intro a
    have ht : calls [Event.trace] = [] := rfl
    have h5 := cudaFree_not_mem_eventDestroyCalls a g.eventStart g.eventStop
    simp only [calls_append, c1, c2, c3, c4, c5, ht, List.mem_append, List.mem_map,
      List.append_nil]
    constructor
    · rintro (⟨x, -, hx⟩ | ⟨x, -, hx⟩ | ⟨x, hx1, hx⟩ | ⟨x, -, hx⟩ | hx)
      · cases hx
      · cases hx
      · cases hx; exact hx1
      · cases hx
      · exact absurd hx h5
    · intro ha
      exact Or.inr (Or.inr (Or.inl ⟨a, ha, rfl⟩))
  refine ⟨rfl, rfl, rfl, rfl, ⟨e1, e2, e3, e4, e5, h1, h3, c1, c2, c3, c4, c5, hiff, ?_, ?_⟩, ?_⟩
  · intro a _ ha
    rw [c3]
    exact List.mem_map_of_mem _ ha
  · intro a _ ha hin
    exact ha ((hiff a).mp hin)
  · intro hops hnn
    exact run_cachedTracked hnn ops hrun hops (new_cachedTracked hnew)

theorem demoPlatform_noNull : demoPlatform.noNull := by
  intro log n
  show 4096 + 256 * log.length ≠ 0
  omega

/-- Claim C7, amended, on the demonstration platform: at the manager `cachedImpl`,
reached without a call of `Impl::free`, whose cached addresses are all tracked, and at
the manager `danglingImpl`, whose cached address 7936 is no longer tracked. -/
theorem C7_cache_clear_amended_witness :
    demoPlatform.succeeds ∧ demoPlatform.noNull ∧
    Impl.new demoPlatform (some 0) [] = .ok demoImpl ∧
    (some 0 : Option Nat).isSome = true ∧
    (demoImpl.run demoPlatform
        [Op.cacheAllocate 0 1024, Op.cacheAllocate 0 512, Op.cacheDeallocate 0 7936] =
          .ok cachedImpl ∧
      (∀ op ∈ [Op.cacheAllocate 0 1024, Op.cacheAllocate 0 512, Op.cacheDeallocate 0 7936],
        op.isFree = false) ∧
      cachedImpl.cached = [7936, 8192] ∧
      (∀ a ∈ cachedImpl.cached, a ∈ cachedImpl.gpuPtr) ∧
      cachedImpl.clearThrustCache.log = cachedImpl.log ∧
      cachedImpl.clearThrustCache.gpuPtr = cachedImpl.gpuPtr ∧
      cachedImpl.clearThrustCache.hostPtr = cachedImpl.hostPtr ∧
      cachedImpl.clearThrustCache.thrustCache = [] ∧
      ∃ e1 e2 e3 e4 e5 : List Event,
        Impl.syncLoop demoPlatform (List.range NumStreams) cachedImpl.clearThrustCache =
          .ok { cachedImpl with thrustCache := [], log := cachedImpl.log ++ e1 } ∧
        cachedImpl.destroy demoPlatform =
          .ok (cachedImpl.log ++ (e1 ++ (e2 ++ (e3 ++ (e4 ++ (e5 ++ [Event.trace])))))) ∧
        calls e1 = cachedImpl.streamPtr.map Call.cudaStreamSynchronize ∧
        calls e2 = cachedImpl.hostPtr.map Call.cudaFreeHost ∧
        calls e3 = cachedImpl.gpuPtr.map Call.cudaFree ∧
        calls e4 = cachedImpl.streamPtr.map Call.cudaStreamDestroy ∧
        calls e5 = eventDestroyCalls cachedImpl.eventStart cachedImpl.eventStop ∧
        (∀ a, Call.cudaFree a ∈ calls (e1 ++ (e2 ++ (e3 ++ (e4 ++ (e5 ++ [Event.trace]))))) ↔
          a ∈ cachedImpl.gpuPtr) ∧
        (∀ a ∈ cachedImpl.cached, a ∈ cachedImpl.gpuPtr → Call.cudaFree a ∈ calls e3) ∧
        (∀ a ∈ cachedImpl.cached, a ∉ cachedImpl.gpuPtr →
          Call.cudaFree a ∉ calls (e1 ++ (e2 ++ (e3 ++ (e4 ++ (e5 ++ [Event.trace]))))))) ∧
    (demoImpl.run demoPlatform [Op.cacheAllocate 0 1024, Op.free 7936] = .ok danglingImpl ∧
      7936 ∈ danglingImpl.cached ∧ 7936 ∉ danglingImpl.gpuPtr ∧
      ∃ e1 e2 e3 e4 e5 : List Event,
        danglingImpl.destroy demoPlatform =
          .ok (danglingImpl.log ++ (e1 ++ (e2 ++ (e3 ++ (e4 ++ (e5 ++ [Event.trace])))))) ∧
        Call.cudaFree 7936 ∉ calls (e1 ++ (e2 ++ (e3 ++ (e4 ++ (e5 ++ [Event.trace])))))) := by
  have hA := C7_cache_clear_amended demoPlatform demoPlatform_succeeds (some 0) [] demoImpl
    cachedImpl [Op.cacheAllocate 0 1024, Op.cacheAllocate 0 512, Op.cacheDeallocate 0 7936]
    demoImpl_new (by rfl) rfl
  have hB := C7_cache_clear_amended demoPlatform demoPlatform_succeeds (some 0) [] demoImpl
    danglingImpl [Op.cacheAllocate 0 1024, Op.free 7936] demoImpl_new (by rfl) rfl
  have hops : ∀ op ∈ [Op.cacheAllocate 0 1024, Op.cacheAllocate 0 512,
      Op.cacheDeallocate 0 7936], op.isFree = false := by decide
  have hin : (7936 : Addr) ∈ danglingImpl.cached := by decide
  have hout : (7936 : Addr) ∉ danglingImpl.gpuPtr := by decide
  obtain ⟨e1, e2, e3, e4, e5, -, hd, -, -, -, -, -, -, -, hno⟩ := hB.2.2.2.2.1
  exact ⟨demoPlatform_succeeds, demoPlatform_noNull, demoImpl_new, rfl,
    ⟨by rfl, hops, by rfl, hA.2.2.2.2.2 hops demoPlatform_noNull, hA.1, hA.2.1, hA.2.2.1,
      hA.2.2.2.1, hA.2.2.2.2.1⟩,
    ⟨by rfl, hin, hout, e1, e2, e3, e4, e5, hd, hno 7936 hin hout⟩⟩

end CCT
